import Mathlib

/-!
Verification of the tutel fast-dispatch core (`tutel/impls/fast_dispatch.py` and
`tutel/impls/jit_compiler.py`) against its natural-language specification.

Tensors are shallowly embedded as functions from indices to exact rationals
(`ℕ → ℚ` for vectors indexed by token, `ℕ → ℕ → ℚ` for matrices), with the
relevant sizes (`num_tokens`, `num_global_experts`, `model_dim`) passed
explicitly.  Integer tensors (one-hot masks, locations) are embedded over `ℤ`.
Floating-point dtypes are tracked symbolically by `DType` where the code
branches on them; arithmetic itself is exact over `ℚ`.
-/

namespace Tutel

/-- Element dtypes the code distinguishes (`torch.float16/32/64`). -/
inductive DType where
  | f16 : DType
  | f32 : DType
  | f64 : DType
deriving DecidableEq, Repr

/-- Machine epsilon of each dtype, the value of `torch.finfo(dtype).eps`. -/
def finfo_eps : DType → ℚ
  | .f16 => 1 / 1024
  | .f32 => 1 / 8388608
  | .f64 => 1 / 4503599627370496

/-- Comparison used to model `torch.topk(..., dim=1)` index selection on a row
`v`: indices ordered by descending value, ties broken by ascending index
(the stable order the spec prescribes for top-k selection). -/
def descKey (v : ℕ → ℚ) (i j : ℕ) : Prop := v j < v i ∨ (v i = v j ∧ i ≤ j)

instance (v : ℕ → ℚ) : DecidableRel (descKey v) := fun i j => by
  unfold descKey; infer_instance

/-- Comparison used to model `torch.argsort(dim=0)` on a vector `v`: ascending
value, ties broken by ascending index (stable sort). -/
def ascKey (v : ℕ → ℚ) (i j : ℕ) : Prop := v i < v j ∨ (v i = v j ∧ i ≤ j)

instance (v : ℕ → ℚ) : DecidableRel (ascKey v) := fun i j => by
  unfold ascKey; infer_instance

/-- Indices of the `k` largest entries of the length-`e` row `v`, best first:
the index part of `torch.topk(gates, top_k, dim=1)` for one row. -/
def topkIdx (v : ℕ → ℚ) (e k : ℕ) : List ℕ :=
  ((List.range e).insertionSort (descKey v)).take k

/-- Stable `argsort` of the length-`n` vector `v`, ascending. -/
def argsort (v : ℕ → ℚ) (n : ℕ) : List ℕ :=
  (List.range n).insertionSort (ascKey v)

/-- Translation of `one_hot_with_dtype(data, num_classes, dtype)` restricted to
its value content: row `t` is the one-hot vector of `data t`.  The integer
dtype used by the code (`x.dtype` of the index tensor) is embedded as `ℤ`. -/
def one_hot_with_dtype (data : ℕ → ℕ) : ℕ → ℕ → ℤ :=
  fun t c => if data t = c then 1 else 0

/-- Modelled from the spec: `fast_cumsum_sub_one` (imported from
`tutel.jit_kernels.gating`, whose source is not part of this core) is the
inclusive cumulative sum along the token axis minus one, the
"cumulative-sum-minus-one" of spec §4.1 step 4. -/
def fast_cumsum_sub_one (x : ℕ → ℕ → ℤ) : ℕ → ℕ → ℤ :=
  fun t c => (∑ s ∈ Finset.range (t + 1), x s c) - 1

/-- Translation of `compute_sorted_location(x, importance_scores)`:
permute the rows of `x` by the stable argsort of `importance_scores`, take the
cumulative-sum-minus-one masked by the permuted rows, and un-permute with the
argsort of the argsort (the inverse permutation). -/
def compute_sorted_location (x : ℕ → ℕ → ℤ) (importance_scores : ℕ → ℚ) (n : ℕ) :
    ℕ → ℕ → ℤ :=
  let p := argsort importance_scores n
  let sorted_x : ℕ → ℕ → ℤ := fun i c => x (p.getD i 0) c
  let sorted_cumsum : ℕ → ℕ → ℤ := fun i c => fast_cumsum_sub_one sorted_x i c * sorted_x i c
  let q := argsort (fun i => ((p.getD i 0 : ℕ) : ℚ)) n
  fun t c => sorted_cumsum (q.getD t 0) c

/-- The per-token row maximum `gates.max(dim=1)[0]` of a matrix with `e`
columns. -/
def rowMax (g : ℕ → ℕ → ℚ) (e : ℕ) (t : ℕ) : ℚ :=
  ((List.range e).map (g t)).foldl max (g t 0)

/-- Translation of `load_balance(gates, mask1, num_global_experts, fp32_gate)`.
`n` and `e` are the two sizes of `gates`; `gates_dtype` is its element dtype,
on which the code branches.  The sum branch accumulates per-expert column sums
and divides by `n²`; the mean branch accumulates per-expert column means. -/
def load_balance (n e : ℕ) (gates : ℕ → ℕ → ℚ) (gates_dtype : DType)
    (mask1 : ℕ → ℕ → ℤ) (num_global_experts : ℕ) (fp32_gate : Bool) : ℚ :=
  if gates_dtype = DType.f32 ∨ fp32_gate then
    let me : ℕ → ℚ := fun c => ∑ t ∈ Finset.range n, gates t c
    let ce : ℕ → ℚ := fun c => ∑ t ∈ Finset.range n, ((mask1 t c : ℤ) : ℚ)
    (∑ c ∈ Finset.range e, me c * ce c) * ((num_global_experts : ℚ) / ((n : ℚ) * (n : ℚ)))
  else
    let me : ℕ → ℚ := fun c => (∑ t ∈ Finset.range n, gates t c) / (n : ℚ)
    let ce : ℕ → ℚ := fun c => (∑ t ∈ Finset.range n, ((mask1 t c : ℤ) : ℚ)) / (n : ℚ)
    (∑ c ∈ Finset.range e, me c * ce c) * (num_global_experts : ℚ)

/-- Python `int(q)` on a float: truncation toward zero. -/
def pyInt (q : ℚ) : ℤ :=
  if q < 0 then -⌊-q⌋ else ⌊q⌋

/-- The tuple returned by `extract_critical` (its first component).
`indices_s`, `locations_s` and `gates_s` are per-rank streams of per-token
values. -/
structure CriticalData where
  num_global_experts : ℕ
  indices_s : List (ℕ → ℕ)
  locations_s : List (ℕ → ℤ)
  gates_s : List (ℕ → ℚ)
  capacity : ℕ

/-- Translation of
`extract_critical(gates, top_k, capacity_factor, fp32_gate, batch_prioritized_routing)`.
`n` and `e` are `gates.size(0)` and `gates.size(1)`; `gates_dtype` the element
dtype of `gates`. -/
def extract_critical (n e : ℕ) (gates : ℕ → ℕ → ℚ) (gates_dtype : DType) (top_k : ℕ)
    (capacity_factor : ℚ) (fp32_gate : Bool) (batch_prioritized_routing : Bool) :
    CriticalData × ℚ :=
  let num_global_experts := e
  let indices_s : List (ℕ → ℕ) :=
    (List.range top_k).map (fun k t => (topkIdx (gates t) e top_k).getD k 0)
  let masks_se : List (ℕ → ℕ → ℤ) := indices_s.map one_hot_with_dtype
  let mask0 : ℕ → ℕ → ℤ := masks_se.getD 0 (fun _ _ => 0)
  let gates_s : List (ℕ → ℚ) :=
    masks_se.map (fun m t => ∑ c ∈ Finset.range e, gates t c * ((m t c : ℤ) : ℚ))
  let l_loss := load_balance n e gates gates_dtype mask0 num_global_experts fp32_gate
  let importance_scores : ℕ → ℚ := fun t => -1 * rowMax gates e t
  let compute_location : (ℕ → ℕ → ℤ) → ℕ → ℕ → ℤ :=
    if batch_prioritized_routing then
      fun x => compute_sorted_location x importance_scores n
    else fast_cumsum_sub_one
  let locations1 := compute_location mask0
  let loc0 : ℕ → ℤ := fun t => ∑ c ∈ Finset.range e, locations1 t c * mask0 t c
  let acc_base : ℕ → ℕ → ℤ :=
    fun k c => ∑ j ∈ Finset.range k, ∑ t ∈ Finset.range n, (masks_se.getD j (fun _ _ => 0)) t c
  let locations_s : List (ℕ → ℤ) :=
    loc0 :: (List.range (top_k - 1)).map (fun k1 t =>
      let k := k1 + 1
      let maskk := masks_se.getD k (fun _ _ => 0)
      let locations2 : ℕ → ℕ → ℤ := fun t c => compute_location maskk t c + acc_base k c
      ∑ c ∈ Finset.range e, locations2 t c * maskk t c)
  let gates_s : List (ℕ → ℚ) :=
    if top_k > 1 then
      let denom_s : ℕ → ℚ :=
        fun t => max ((gates_s.map (fun gs => gs t)).sum) (finfo_eps gates_dtype)
      gates_s.map (fun gs t => gs t / denom_s t)
    else gates_s
  let capacity : ℕ :=
    top_k * (pyInt (capacity_factor * (((n + e - 1) / e : ℕ) : ℚ))).toNat
  ({ num_global_experts := num_global_experts, indices_s := indices_s,
     locations_s := locations_s, gates_s := gates_s, capacity := capacity }, l_loss)

/-- The fields of `TutelMoeFastDispatcher` that `encode`/`decode` read after
`update`: sizes, the per-rank assignment streams, and the postscore flag.
Dtype bookkeeping is value-preserving in the exact-rational embedding and is
modelled separately for the kernel-binding claims. -/
structure DispatchConfig where
  num_global_experts : ℕ
  capacity : ℕ
  model_dim : ℕ
  sample_size : ℕ
  indices_ : List (ℕ → ℕ)
  locations_ : List (ℕ → ℤ)
  gates_ : List (ℕ → ℚ)
  is_postscore : Bool

/-- Modelled from the spec: the `forward` scatter kernel
(`jit_kernel.create_forward`, source not part of this core; contract in spec
§4.2): for every token `t` with `0 ≤ l t < C`,
`dst[i[t]*C + l[t]] += g[t] * src[t]`, accumulating into `dst`; out-of-range
locations are skipped (spec §9). -/
def func_fwd (n C : ℕ) (g : ℕ → ℚ) (i : ℕ → ℕ) (l : ℕ → ℤ)
    (src dst : ℕ → ℕ → ℚ) : ℕ → ℕ → ℚ :=
  fun r d => dst r d +
    ∑ t ∈ Finset.range n,
      if (i t : ℤ) * C + l t = (r : ℤ) ∧ 0 ≤ l t ∧ l t < C then g t * src t d else 0

/-- Modelled from the spec: the `backward_data` gather kernel
(`jit_kernel.create_backward_data`; contract in spec §4.2): the output row for
token `t` is `g[t] * buf[i[t]*C + l[t]]`; tokens with out-of-range locations
receive `0` (their contribution is dropped, spec §7/§9). -/
def func_bwd_data (C : ℕ) (g : ℕ → ℚ) (i : ℕ → ℕ) (l : ℕ → ℤ)
    (buf : ℕ → ℕ → ℚ) : ℕ → ℕ → ℚ :=
  fun t d => if 0 ≤ l t ∧ l t < C then g t * buf (i t * C + (l t).toNat) d else 0

/-- Modelled from the spec: the `backward_gate` reduce kernel
(`jit_kernel.create_backward_gate`; contract in spec §4.2):
`out[t] = dot(lhs[t], rhs[i[t]*C + l[t]])` over the `dim` feature columns;
tokens with out-of-range locations receive `0`. -/
def func_bwd_gate (C dim : ℕ) (i : ℕ → ℕ) (l : ℕ → ℤ)
    (lhs rhs : ℕ → ℕ → ℚ) : ℕ → ℚ :=
  fun t => if 0 ≤ l t ∧ l t < C then
      ∑ d ∈ Finset.range dim, lhs t d * rhs (i t * C + (l t).toNat) d
    else 0

/-- The all-ones gate streams substituted when no gate tensors are passed
(`ctx.gates_h2 = [ctx.config.ones_helper] * len(ctx.config.indices_)`); the
`ones_helper` is an all-ones tensor, one stream per index stream. -/
def ones_gates (c : DispatchConfig) : List (ℕ → ℚ) :=
  c.indices_.map (fun _ _ => (1 : ℚ))

/-- The `gates_h2` list of `GatingEncoder.forward`/`GatingDecoder.forward`:
the passed gate streams if any, else one all-ones stream per index stream.
The float16 `.view(-1,1).repeat(1,2)` packing is a memory-layout detail that
does not change the per-token gate value and is dropped by the embedding. -/
def gates_h2 (c : DispatchConfig) (gs : List (ℕ → ℚ)) : List (ℕ → ℚ) :=
  if gs.isEmpty then ones_gates c else gs

/-- Translation of `GatingEncoder.forward(ctx, config, reshaped_input, *gates_)`:
starting from a zero buffer of `num_global_experts * capacity` rows, run the
forward scatter kernel once per `(gate, index, location)` stream. -/
def GatingEncoder_forward (c : DispatchConfig) (reshaped_input : ℕ → ℕ → ℚ)
    (gs : List (ℕ → ℚ)) : ℕ → ℕ → ℚ :=
  ((gates_h2 c gs).zip (c.indices_.zip c.locations_)).foldl
    (fun dispatched gil =>
      func_fwd c.sample_size c.capacity gil.1 gil.2.1 gil.2.2 reshaped_input dispatched)
    (fun _ _ => 0)

/-- Translation of `GatingEncoder.backward`: the data gradient is the sum over
streams of the gather kernel applied to the upstream gradient; the gate
gradients exist only when real gate tensors were passed (the code's
`id(ctx.gates_h2[0]) != id(ctx.config.ones_helper)` check) and are the
backward-gate reductions of the original input against the upstream
gradient. -/
def GatingEncoder_backward (c : DispatchConfig) (reshaped_input : ℕ → ℕ → ℚ)
    (gs : List (ℕ → ℚ)) (dispatched_input : ℕ → ℕ → ℚ) :
    (ℕ → ℕ → ℚ) × List (ℕ → ℚ) :=
  let streams := (gates_h2 c gs).zip (c.indices_.zip c.locations_)
  let grad_data : ℕ → ℕ → ℚ := fun t d =>
    (streams.map (fun gil =>
      func_bwd_data c.capacity gil.1 gil.2.1 gil.2.2 dispatched_input t d)).sum
  let grad_gates : List (ℕ → ℚ) :=
    if gs.isEmpty then []
    else (c.indices_.zip c.locations_).map (fun il =>
      func_bwd_gate c.capacity c.model_dim il.1 il.2 reshaped_input dispatched_input)
  (grad_data, grad_gates)

/-- Translation of `GatingDecoder.forward(ctx, config, expert_output, *gates_)`:
the combined output is the sum over streams of the gather kernel applied to the
expert buffer. -/
def GatingDecoder_forward (c : DispatchConfig) (expert_output : ℕ → ℕ → ℚ)
    (gs : List (ℕ → ℚ)) : ℕ → ℕ → ℚ :=
  fun t d =>
    (((gates_h2 c gs).zip (c.indices_.zip c.locations_)).map (fun gil =>
      func_bwd_data c.capacity gil.1 gil.2.1 gil.2.2 expert_output t d)).sum

/-- Translation of `TutelMoeFastDispatcher.encode`: postscore mode passes no
gate tensors to the encoder (all-ones weighting); prescore mode passes the
real gates. -/
def encode (c : DispatchConfig) (data : ℕ → ℕ → ℚ) : ℕ → ℕ → ℚ :=
  if c.is_postscore then GatingEncoder_forward c data []
  else GatingEncoder_forward c data c.gates_

/-- Translation of `TutelMoeFastDispatcher.decode`: postscore mode passes the
real gates to the decoder; prescore mode passes none (all-ones weighting). -/
def decode (c : DispatchConfig) (data : ℕ → ℕ → ℚ) : ℕ → ℕ → ℚ :=
  if c.is_postscore then GatingDecoder_forward c data c.gates_
  else GatingDecoder_forward c data []

/-- The dispatcher state `fast_encode`/`fast_decode` build: a fresh
`TutelMoeFastDispatcher(num_global_experts, 0, model_dim, dtype)` followed by
`update(*critial_data[1:], is_postscore=...)`, which installs the streams, sets
`sample_size` to the token count and `capacity` to the critical data's
capacity. -/
def dispatcherOf (n dim : ℕ) (cd : CriticalData) (is_postscore : Bool) : DispatchConfig :=
  { num_global_experts := cd.num_global_experts
    capacity := cd.capacity
    model_dim := dim
    sample_size := n
    indices_ := cd.indices_s
    locations_ := cd.locations_s
    gates_ := cd.gates_s
    is_postscore := is_postscore }

/-- Translation of `fast_encode(data, critial_data, is_postscore)` for data of
shape `[n, dim]`. -/
def fast_encode (n dim : ℕ) (data : ℕ → ℕ → ℚ) (cd : CriticalData)
    (is_postscore : Bool) : ℕ → ℕ → ℚ :=
  encode (dispatcherOf n dim cd is_postscore) data

/-- Translation of `fast_decode(data, critial_data, is_postscore)`. -/
def fast_decode (n dim : ℕ) (data : ℕ → ℕ → ℚ) (cd : CriticalData)
    (is_postscore : Bool) : ℕ → ℕ → ℚ :=
  decode (dispatcherOf n dim cd is_postscore) data

/-- Identity of one bound kernel-handle tuple
`(func_fwd, func_bwd_data, func_bwd_gate, ones_helper)`: the handles are
created by `jit_kernel.create_*(self.dtype, is_cuda)`, so their identity is
determined by the dtype and device class they were specialized for. -/
structure KernelHandles where
  dtype : DType
  is_cuda : Bool
deriving DecidableEq, Repr

/-- The dispatcher state relevant to kernel binding: the compute dtype fixed
at construction, the device class seen by the last `update`, and the handles
currently bound. -/
structure DispatcherBind where
  dtype : DType
  is_cuda : Option Bool
  handles : Option KernelHandles
deriving DecidableEq, Repr

/-- The `TutelMoeFastDispatcher.__init__` dtype rule: any dtype other than
float16 — or any dtype at all on HIP — is replaced by float32 as the compute
dtype. -/
def dispatcher_dtype (is_hip_extension : Bool) (dispatch_dtype : DType) : DType :=
  if is_hip_extension ∨ dispatch_dtype ≠ DType.f16 then DType.f32 else dispatch_dtype

/-- A fresh dispatcher's binding state after `__init__`. -/
def dispatcher_init (is_hip_extension : Bool) (dispatch_dtype : DType) : DispatcherBind :=
  { dtype := dispatcher_dtype is_hip_extension dispatch_dtype
    is_cuda := none, handles := none }

/-- Translation of the kernel-binding step of `TutelMoeFastDispatcher.update`
(lines 101–110): when the device class of the incoming indices differs from
the one last seen, consult the class-level `kernel_pool`, keyed by `is_cuda`
alone; on a miss, create handles specialized for `(self.dtype, is_cuda)` and
store them; on a hit, bind the stored handles unchanged.  Returns the updated
pool and dispatcher state. -/
def update_bind (pool : List (Bool × KernelHandles)) (st : DispatcherBind)
    (ind_is_cuda : Bool) : List (Bool × KernelHandles) × DispatcherBind :=
  if st.is_cuda ≠ some ind_is_cuda then
    match pool.lookup ind_is_cuda with
    | none =>
        let h : KernelHandles := { dtype := st.dtype, is_cuda := ind_is_cuda }
        ((ind_is_cuda, h) :: pool,
         { st with is_cuda := some ind_is_cuda, handles := some h })
    | some h => (pool, { st with is_cuda := some ind_is_cuda, handles := some h })
  else (pool, st)

/-- The per-rank selected-expert stream of `extract_critical`: rank `k`'s entry
of the top-`tk` expert list of token `t`'s gate row. -/
def selectedExpert (g : ℕ → ℕ → ℚ) (e tk k : ℕ) : ℕ → ℕ :=
  fun t => (topkIdx (g t) e tk).getD k 0

/-- The `indices_s` list built by `extract_critical`, split out for reuse in
proofs (definitionally equal to the corresponding `let`-body). -/
def ec_indices (e tk : ℕ) (g : ℕ → ℕ → ℚ) : List (ℕ → ℕ) :=
  (List.range tk).map (fun k t => (topkIdx (g t) e tk).getD k 0)

/-- The `masks_se` list built by `extract_critical`. -/
def ec_masks (e tk : ℕ) (g : ℕ → ℕ → ℚ) : List (ℕ → ℕ → ℤ) :=
  (ec_indices e tk g).map one_hot_with_dtype

/-- The `k`-th one-hot mask of `extract_critical` (zero mask out of range). -/
def ec_mask (e tk : ℕ) (g : ℕ → ℕ → ℚ) (k : ℕ) : ℕ → ℕ → ℤ :=
  (ec_masks e tk g).getD k (fun _ _ => 0)

/-- The raw (pre-normalization) `gates_s` list of `extract_critical`. -/
def ec_gatesRaw (e tk : ℕ) (g : ℕ → ℕ → ℚ) : List (ℕ → ℚ) :=
  (ec_masks e tk g).map (fun m t => ∑ c ∈ Finset.range e, g t c * ((m t c : ℤ) : ℚ))

/-- The final `gates_s` list of `extract_critical`: top-k normalized when
`tk > 1`. -/
def ec_gates (e tk : ℕ) (g : ℕ → ℕ → ℚ) (dt : DType) : List (ℕ → ℚ) :=
  if tk > 1 then
    (ec_gatesRaw e tk g).map (fun gs t =>
      gs t / max (((ec_gatesRaw e tk g).map (fun gs => gs t)).sum) (finfo_eps dt))
  else ec_gatesRaw e tk g

/-- The `compute_location` closure of `extract_critical`. -/
def ec_compute_location (n e : ℕ) (g : ℕ → ℕ → ℚ) (bpr : Bool) :
    (ℕ → ℕ → ℤ) → ℕ → ℕ → ℤ :=
  if bpr then (fun x => compute_sorted_location x (fun t => -1 * rowMax g e t) n)
  else fast_cumsum_sub_one

/-- The `acc_base` per-expert offset of rank `k` in `extract_critical`: the
column sums of all lower-rank masks. -/
def ec_acc_base (n e tk : ℕ) (g : ℕ → ℕ → ℚ) (k : ℕ) : ℕ → ℤ :=
  fun c => ∑ j ∈ Finset.range k, ∑ t ∈ Finset.range n, ec_mask e tk g j t c

/-- The `locations_s` list built by `extract_critical`. -/
def ec_locations (n e tk : ℕ) (g : ℕ → ℕ → ℚ) (bpr : Bool) : List (ℕ → ℤ) :=
  (fun t => ∑ c ∈ Finset.range e,
      ec_compute_location n e g bpr (ec_mask e tk g 0) t c * ec_mask e tk g 0 t c)
  :: (List.range (tk - 1)).map (fun k1 t =>
      ∑ c ∈ Finset.range e,
        (ec_compute_location n e g bpr (ec_mask e tk g (k1 + 1)) t c
          + ec_acc_base n e tk g (k1 + 1) c) * ec_mask e tk g (k1 + 1) t c)

/-- Number of occurrences of expert `E` among `f 0, …, f t` (inclusive prefix
count), as an integer: the value `fast_cumsum_sub_one` of the one-hot mask of
`f` takes at `(t, E)`, plus one. -/
def countUpTo (f : ℕ → ℕ) (E t : ℕ) : ℤ :=
  ∑ s ∈ Finset.range (t + 1), if f s = E then 1 else 0

/-- The sorted position of token `t` under the stable argsort of `v`
(the `importance_scores.argsort(dim=0).argsort(dim=0)` value at `t`). -/
def rankOf (v : ℕ → ℚ) (n t : ℕ) : ℕ :=
  (argsort (fun i => (((argsort v n).getD i 0 : ℕ) : ℚ)) n).getD t 0

/-- Token `t` strictly precedes token `u` in the batch-prioritized order:
higher top-1 confidence first, ties broken by token index. -/
def priorityBefore (g : ℕ → ℕ → ℚ) (e : ℕ) (t u : ℕ) : Prop :=
  rowMax g e u < rowMax g e t ∨ (rowMax g e t = rowMax g e u ∧ t < u)

/-- A gate row is one-hot: some in-range expert has score 1 and every other
in-range expert has score 0 (the spec's "identity-like one-hot routing"). -/
def isOneHotRow (g : ℕ → ℕ → ℚ) (e t : ℕ) : Prop :=
  ∃ j, j < e ∧ g t j = 1 ∧ ∀ c, c < e → c ≠ j → g t c = 0

/-- Per-expert column sum over the batch (spec formula ingredient). -/
def colSum (n : ℕ) (f : ℕ → ℕ → ℚ) (c : ℕ) : ℚ :=
  ∑ t ∈ Finset.range n, f t c

/-- Per-expert column mean over the batch (spec formula ingredient). -/
def colMean (n : ℕ) (f : ℕ → ℕ → ℚ) (c : ℕ) : ℚ :=
  colSum n f c / (n : ℚ)

/-- An integer mask viewed as a rational matrix (the `mask1.to(me.dtype)`
cast). -/
def maskQ (m : ℕ → ℕ → ℤ) : ℕ → ℕ → ℚ :=
  fun t c => ((m t c : ℤ) : ℚ)

/-- The 4-token, 2-expert gate matrix of the spec's concrete scenario:
rows `[[0.9,0.1],[0.8,0.2],[0.3,0.7],[0.4,0.6]]`. -/
def testGates : ℕ → ℕ → ℚ := fun t c =>
  (([[9/10, 1/10], [8/10, 2/10], [3/10, 7/10], [4/10, 6/10]] : List (List ℚ)).getD t []).getD c 0

/-- A 2×2 identity gate matrix: token `t` routed one-hot to expert `t`. -/
def identityGates : ℕ → ℕ → ℚ := fun t c => if t = c then 1 else 0

/-- A gate matrix with integer scores in which every token prefers expert 0. -/
def flatGates : ℕ → ℕ → ℚ := fun _ c => if c = 0 then 2 else 1

instance (v : ℕ → ℚ) : IsTotal ℕ (ascKey v) where
  total i j := by
    unfold ascKey
    rcases lt_trichotomy (v i) (v j) with h | h | h
    · exact Or.inl (Or.inl h)
    · rcases Nat.le_total i j with hij | hij
      · exact Or.inl (Or.inr ⟨h, hij⟩)
      · exact Or.inr (Or.inr ⟨h.symm, hij⟩)
    · exact Or.inr (Or.inl h)

instance (v : ℕ → ℚ) : IsTrans ℕ (ascKey v) where
  trans i j k hij hjk := by
    unfold ascKey at *
    rcases hij with h1 | ⟨h1, h1'⟩
    · rcases hjk with h2 | ⟨h2, h2'⟩
      · exact Or.inl (h1.trans h2)
      · exact Or.inl (h2 ▸ h1)
    · rcases hjk with h2 | ⟨h2, h2'⟩
      · exact Or.inl (h1 ▸ h2)
      · exact Or.inr ⟨h1.trans h2, h1'.trans h2'⟩

instance (v : ℕ → ℚ) : IsTotal ℕ (descKey v) where
  total i j := by
    unfold descKey
    rcases lt_trichotomy (v i) (v j) with h | h | h
    · exact Or.inr (Or.inl h)
    · rcases Nat.le_total i j with hij | hij
      · exact Or.inl (Or.inr ⟨h, hij⟩)
      · exact Or.inr (Or.inr ⟨h.symm, hij⟩)
    · exact Or.inl (Or.inl h)

instance (v : ℕ → ℚ) : IsTrans ℕ (descKey v) where
  trans i j k hij hjk := by
    unfold descKey at *
    rcases hij with h1 | ⟨h1, h1'⟩
    · rcases hjk with h2 | ⟨h2, h2'⟩
      · exact Or.inl (h2.trans h1)
      · exact Or.inl (h2 ▸ h1)
    · rcases hjk with h2 | ⟨h2, h2'⟩
      · exact Or.inl (h1 ▸ h2)
      · exact Or.inr ⟨h2 ▸ h1, h1'.trans h2'⟩

/-- Result of one successful CPU kernel invocation: which specialized entry
point ran (`invoke_cpu_fp32` or `invoke_cpu_fp64`) with which kernel type. -/
inductive CpuKernelResult where
  | fp32 : ℕ → CpuKernelResult
  | fp64 : ℕ → CpuKernelResult
deriving DecidableEq, Repr

/-- Translation of `JitCompiler.generate_cpu_kernel(kernel_type)`: binding
returns a closure and cannot itself fail, which the embedding records by
always returning `Except.ok`.  The dtype dispatch happens when the closure is
invoked with concrete inputs: float32 and float64 run the corresponding
specialized entry point; any other dtype raises
`"CPU kernel only supports float32 and float64!"`. -/
def generate_cpu_kernel (kernel_type : ℕ) :
    Except String (DType → Except String CpuKernelResult) :=
  Except.ok (fun dt =>
    if dt = DType.f32 then Except.ok (CpuKernelResult.fp32 kernel_type)
    else if dt = DType.f64 then Except.ok (CpuKernelResult.fp64 kernel_type)
    else Except.error "CPU kernel only supports float32 and float64!")

/-! ### Basic list and sum helpers -/

lemma getD_map_range {α : Type} (m k : ℕ) (f : ℕ → α) (d : α) (hk : k < m) :
    ((List.range m).map f).getD k d = f k := by
  rw [List.getD_eq_getElem _ _ (by simpa using hk)]
  simp

lemma list_sum_map_range {M : Type} [AddCommMonoid M] (m : ℕ) (f : ℕ → M) :
    ((List.range m).map f).sum = ∑ j ∈ Finset.range m, f j := by
  induction m with
  | zero => simp
  | succ m ih => simp [List.range_succ, Finset.sum_range_succ, ih]

lemma sum_mul_onehot (e : ℕ) (f : ℕ → ℚ) (j : ℕ) (hj : j < e) :
    (∑ c ∈ Finset.range e, f c * (((if j = c then (1 : ℤ) else 0) : ℤ) : ℚ)) = f j := by
  have h : ∀ c ∈ Finset.range e,
      f c * (((if j = c then (1 : ℤ) else 0) : ℤ) : ℚ) = if j = c then f c else 0 := by
    intro c _; split_ifs <;> simp
  rw [Finset.sum_congr rfl h, Finset.sum_ite_eq]
  simp [hj]

lemma sum_mul_onehot_int (e : ℕ) (f : ℕ → ℤ) (j : ℕ) (hj : j < e) :
    (∑ c ∈ Finset.range e, f c * (if j = c then (1 : ℤ) else 0)) = f j := by
  have h : ∀ c ∈ Finset.range e,
      f c * (if j = c then (1 : ℤ) else 0) = if j = c then f c else 0 := by
    intro c _; split_ifs <;> simp
  rw [Finset.sum_congr rfl h, Finset.sum_ite_eq]
  simp [hj]

/-! ### Top-k selection -/

lemma length_topkIdx (v : ℕ → ℚ) (e tk : ℕ) : (topkIdx v e tk).length = min tk e := by
  simp [topkIdx, List.length_insertionSort]

lemma topkIdx_getD_lt (v : ℕ → ℚ) (e tk k : ℕ) (he : 0 < e) (hk : k < tk) (hke : tk ≤ e) :
    (topkIdx v e tk).getD k 0 < e := by
  have hlen : k < (topkIdx v e tk).length := by
    rw [length_topkIdx]; omega
  rw [List.getD_eq_getElem _ _ hlen]
  have hmem : (topkIdx v e tk)[k] ∈ topkIdx v e tk := List.getElem_mem hlen
  have hmem2 : (topkIdx v e tk)[k] ∈ (List.range e).insertionSort (descKey v) :=
    List.mem_of_mem_take hmem
  have := (List.perm_insertionSort (descKey v) (List.range e)).mem_iff.mp hmem2
  simpa using this

lemma selectedExpert_lt (g : ℕ → ℕ → ℚ) (e tk k t : ℕ)
    (he : 0 < e) (hk : k < tk) (hke : tk ≤ e) :
    selectedExpert g e tk k t < e :=
  topkIdx_getD_lt (g t) e tk k he hk hke

/-! ### Decomposition of `extract_critical` -/

lemma extract_critical_fst (n e : ℕ) (g : ℕ → ℕ → ℚ) (dt : DType) (tk : ℕ)
    (cf : ℚ) (fp bpr : Bool) :
    (extract_critical n e g dt tk cf fp bpr).1 =
      { num_global_experts := e
        indices_s := ec_indices e tk g
        locations_s := ec_locations n e tk g bpr
        gates_s := ec_gates e tk g dt
        capacity := tk * (pyInt (cf * (((n + e - 1) / e : ℕ) : ℚ))).toNat } := rfl

lemma extract_critical_snd (n e : ℕ) (g : ℕ → ℕ → ℚ) (dt : DType) (tk : ℕ)
    (cf : ℚ) (fp bpr : Bool) :
    (extract_critical n e g dt tk cf fp bpr).2 =
      load_balance n e g dt (ec_mask e tk g 0) e fp := rfl

lemma ec_indices_getD (e tk : ℕ) (g : ℕ → ℕ → ℚ) (k : ℕ) (hk : k < tk) :
    (ec_indices e tk g).getD k (fun _ => 0) = selectedExpert g e tk k := by
  unfold ec_indices selectedExpert
  exact getD_map_range tk k _ _ hk

lemma ec_mask_eq (e tk : ℕ) (g : ℕ → ℕ → ℚ) (k : ℕ) (hk : k < tk) :
    ec_mask e tk g k = one_hot_with_dtype (selectedExpert g e tk k) := by
  unfold ec_mask ec_masks ec_indices
  rw [List.map_map]
  exact getD_map_range tk k _ _ hk

lemma ec_gatesRaw_getD (e tk : ℕ) (g : ℕ → ℕ → ℚ) (k : ℕ) (hk : k < tk) (he : 0 < e)
    (hke : tk ≤ e) (t : ℕ) :
    (ec_gatesRaw e tk g).getD k (fun _ => 0) t = g t (selectedExpert g e tk k t) := by
  unfold ec_gatesRaw
  rw [ec_masks, ec_indices, List.map_map, List.map_map]
  rw [getD_map_range tk k _ _ hk]
  show (∑ c ∈ Finset.range e,
      g t c * (((one_hot_with_dtype (fun t => (topkIdx (g t) e tk).getD k 0) t c : ℤ)) : ℚ)) = _
  unfold one_hot_with_dtype
  exact sum_mul_onehot e (g t) _ (selectedExpert_lt g e tk k t he hk hke)

/-! ### Stable argsort -/

lemma argsort_length (v : ℕ → ℚ) (n : ℕ) : (argsort v n).length = n := by
  simp [argsort, List.length_insertionSort]

lemma argsort_perm (v : ℕ → ℚ) (n : ℕ) : (argsort v n).Perm (List.range n) :=
  List.perm_insertionSort _ _

lemma argsort_sorted (v : ℕ → ℚ) (n : ℕ) : List.Sorted (ascKey v) (argsort v n) :=
  List.sorted_insertionSort _ _

lemma argsort_getD_lt (v : ℕ → ℚ) (n t : ℕ) (ht : t < n) : (argsort v n).getD t 0 < n := by
  have hl : t < (argsort v n).length := by rw [argsort_length]; exact ht
  rw [List.getD_eq_getElem _ _ hl]
  have hmem : (argsort v n)[t] ∈ argsort v n := List.getElem_mem hl
  simpa using (argsort_perm v n).mem_iff.mp hmem

lemma map_getD_range {α : Type} (l : List α) (d : α) :
    (List.range l.length).map (fun i => l.getD i d) = l := by
  apply List.ext_getElem
  · simp
  · intro i h1 h2
    simp only [List.getElem_map, List.getElem_range]
    exact List.getD_eq_getElem l d h2

lemma argsort_inv (v : ℕ → ℚ) (n t : ℕ) (ht : t < n) :
    (argsort v n).getD (rankOf v n t) 0 = t := by
  have hpl : (argsort v n).length = n := argsort_length v n
  have hql : (argsort (fun i => (((argsort v n).getD i 0 : ℕ) : ℚ)) n).length = n :=
    argsort_length _ n
  set p := argsort v n with hpdef
  set q := argsort (fun i => ((p.getD i 0 : ℕ) : ℚ)) n with hqdef
  set f : ℕ → ℕ := fun i => p.getD i 0 with hfdef
  have hmap : (List.range n).map f = p := by
    rw [← hpl]; exact map_getD_range p 0
  have hmperm : (q.map f).Perm (List.range n) := by
    refine ((argsort_perm _ n).map f).trans ?_
    rw [hmap]; exact argsort_perm v n
  have hmsort : (q.map f).Sorted (· ≤ ·) := by
    have hs : q.Sorted (ascKey (fun i => ((f i : ℕ) : ℚ))) := argsort_sorted _ n
    refine List.Pairwise.map f ?_ hs
    intro a b hab
    rcases hab with h | ⟨h, _⟩
    · exact le_of_lt (Nat.cast_lt.mp h)
    · exact le_of_eq (Nat.cast_injective h)
  have hrange : (List.range n).Sorted (· ≤ ·) :=
    (List.pairwise_lt_range n).imp le_of_lt
  have hmeq : q.map f = List.range n :=
    List.eq_of_perm_of_sorted hmperm hmsort hrange
  have htq : t < q.length := by rw [hql]; exact ht
  have h3 : (q.map f).getD t 0 = f (q.getD t 0) := by
    rw [List.getD_eq_getElem _ _ (by simpa using htq), List.getD_eq_getElem q 0 htq,
      List.getElem_map]
  calc p.getD (rankOf v n t) 0 = f (q.getD t 0) := rfl
    _ = (q.map f).getD t 0 := h3.symm
    _ = (List.range n).getD t 0 := by rw [hmeq]
    _ = t := by rw [List.getD_eq_getElem _ _ (by simpa using ht)]; simp

lemma rankOf_lt (v : ℕ → ℚ) (n t : ℕ) (ht : t < n) : rankOf v n t < n :=
  argsort_getD_lt _ n t ht

lemma rankOf_strict (v : ℕ → ℚ) (n t u : ℕ) (ht : t < n) (hu : u < n)
    (h : v t < v u ∨ (v t = v u ∧ t < u)) : rankOf v n t < rankOf v n u := by
  have hpt : (argsort v n).getD (rankOf v n t) 0 = t := argsort_inv v n t ht
  have hpu : (argsort v n).getD (rankOf v n u) 0 = u := argsort_inv v n u hu
  have htu : t ≠ u := by
    rcases h with h | ⟨_, h⟩
    · exact fun he => absurd (he ▸ h) (lt_irrefl _)
    · omega
  have hne : rankOf v n t ≠ rankOf v n u := by
    intro he; exact htu (by rw [← hpt, he, hpu])
  rcases lt_or_gt_of_ne hne with hlt | hgt
  · exact hlt
  · exfalso
    have hs := argsort_sorted v n
    have hlt1 : rankOf v n u < (argsort v n).length := by
      rw [argsort_length]; exact rankOf_lt v n u hu
    have hlt2 : rankOf v n t < (argsort v n).length := by
      rw [argsort_length]; exact rankOf_lt v n t ht
    have hrel := hs.rel_get_of_lt (a := ⟨rankOf v n u, hlt1⟩) (b := ⟨rankOf v n t, hlt2⟩)
      (by exact hgt)
    have hgu : (argsort v n).get ⟨rankOf v n u, hlt1⟩ = u := by
      rw [← List.getD_eq_get _ 0 hlt1]; exact hpu
    have hgt' : (argsort v n).get ⟨rankOf v n t, hlt2⟩ = t := by
      rw [← List.getD_eq_get _ 0 hlt2]; exact hpt
    rw [hgu, hgt'] at hrel
    rcases hrel with hrel | ⟨hrel, hrel'⟩
    · rcases h with h | ⟨h, _⟩
      · exact absurd (hrel.trans h) (lt_irrefl _)
      · rw [h] at hrel; exact absurd hrel (lt_irrefl _)
    · rcases h with h | ⟨_, h⟩
      · rw [hrel] at h; exact absurd h (lt_irrefl _)
      · omega

/-! ### Prefix-sum counting -/

lemma prefix_sum_lt (f : ℕ → ℤ) (hf : ∀ i, 0 ≤ f i) (a b : ℕ) (hab : a < b)
    (hb : 1 ≤ f b) :
    ∑ i ∈ Finset.range (a + 1), f i < ∑ i ∈ Finset.range (b + 1), f i := by
  have h1 : ∑ i ∈ Finset.range (a + 1), f i + ∑ i ∈ Finset.Ico (a + 1) (b + 1), f i
      = ∑ i ∈ Finset.range (b + 1), f i := by
    rw [Finset.range_eq_Ico]
    exact Finset.sum_Ico_consecutive f (by omega) (by omega)
  have h2 : f b ≤ ∑ i ∈ Finset.Ico (a + 1) (b + 1), f i :=
    Finset.single_le_sum (fun i _ => hf i) (by simp [Finset.mem_Ico]; omega)
  omega

lemma prefix_sum_le_total (f : ℕ → ℤ) (hf : ∀ i, 0 ≤ f i) (a n : ℕ) (ha : a < n) :
    ∑ i ∈ Finset.range (a + 1), f i ≤ ∑ i ∈ Finset.range n, f i :=
  Finset.sum_le_sum_of_subset_of_nonneg
    (Finset.range_subset.mpr (by omega)) (fun i _ _ => hf i)

/-! ### Closed forms for the slot locations of `extract_critical` -/

lemma ec_locations_getD_nonbpr (n e tk : ℕ) (g : ℕ → ℕ → ℚ) (k : ℕ)
    (hk : k < tk) (he : 0 < e) (hke : tk ≤ e) (t : ℕ) :
    (ec_locations n e tk g false).getD k (fun _ => 0) t
      = countUpTo (selectedExpert g e tk k) (selectedExpert g e tk k t) t - 1
        + ec_acc_base n e tk g k (selectedExpert g e tk k t) := by
  have hsel : selectedExpert g e tk k t < e := selectedExpert_lt g e tk k t he hk hke
  have hcl : ec_compute_location n e g false = fast_cumsum_sub_one := by
    simp [ec_compute_location]
  cases k with
  | zero =>
    unfold ec_locations
    rw [List.getD_cons_zero, hcl, ec_mask_eq e tk g 0 hk]
    have hstep : ∀ c ∈ Finset.range e,
        fast_cumsum_sub_one (one_hot_with_dtype (selectedExpert g e tk 0)) t c
          * one_hot_with_dtype (selectedExpert g e tk 0) t c
        = (countUpTo (selectedExpert g e tk 0) c t - 1)
          * (if selectedExpert g e tk 0 t = c then (1 : ℤ) else 0) := by
      intro c _
      simp [fast_cumsum_sub_one, one_hot_with_dtype, countUpTo]
    rw [Finset.sum_congr rfl hstep,
      sum_mul_onehot_int e (fun c => countUpTo (selectedExpert g e tk 0) c t - 1) _ hsel]
    simp [ec_acc_base]
  | succ k1 =>
    unfold ec_locations
    rw [List.getD_cons_succ]
    rw [getD_map_range (tk - 1) k1 _ _ (by omega)]
    rw [hcl, ec_mask_eq e tk g (k1 + 1) hk]
    have hstep : ∀ c ∈ Finset.range e,
        (fast_cumsum_sub_one (one_hot_with_dtype (selectedExpert g e tk (k1 + 1))) t c
            + ec_acc_base n e tk g (k1 + 1) c)
          * one_hot_with_dtype (selectedExpert g e tk (k1 + 1)) t c
        = (countUpTo (selectedExpert g e tk (k1 + 1)) c t - 1
            + ec_acc_base n e tk g (k1 + 1) c)
          * (if selectedExpert g e tk (k1 + 1) t = c then (1 : ℤ) else 0) := by
      intro c _
      simp [fast_cumsum_sub_one, one_hot_with_dtype, countUpTo]
    rw [Finset.sum_congr rfl hstep,
      sum_mul_onehot_int e
        (fun c => countUpTo (selectedExpert g e tk (k1 + 1)) c t - 1
          + ec_acc_base n e tk g (k1 + 1) c) _ hsel]

/-- The importance scores used by batch-prioritized routing. -/
lemma ec_locations_getD_bpr (n e tk : ℕ) (g : ℕ → ℕ → ℚ) (k : ℕ)
    (hk : k < tk) (he : 0 < e) (hke : tk ≤ e) (t : ℕ) (ht : t < n) :
    (ec_locations n e tk g true).getD k (fun _ => 0) t
      = (∑ i ∈ Finset.range (rankOf (fun s => -1 * rowMax g e s) n t + 1),
          if selectedExpert g e tk k
              ((argsort (fun s => -1 * rowMax g e s) n).getD i 0)
            = selectedExpert g e tk k t then (1 : ℤ) else 0) - 1
        + ec_acc_base n e tk g k (selectedExpert g e tk k t) := by
  have hsel : selectedExpert g e tk k t < e := selectedExpert_lt g e tk k t he hk hke
  have hinv : (argsort (fun s => -1 * rowMax g e s) n).getD
      (rankOf (fun s => -1 * rowMax g e s) n t) 0 = t :=
    argsort_inv _ n t ht
  have hsummand : ∀ m : ℕ, m < tk → ∀ c ∈ Finset.range e,
      ec_compute_location n e g true (one_hot_with_dtype (selectedExpert g e tk m)) t c
          * one_hot_with_dtype (selectedExpert g e tk m) t c
        = ((∑ i ∈ Finset.range (rankOf (fun s => -1 * rowMax g e s) n t + 1),
            if selectedExpert g e tk m
                ((argsort (fun s => -1 * rowMax g e s) n).getD i 0) = c
              then (1 : ℤ) else 0) - 1)
          * (if selectedExpert g e tk m t = c then (1 : ℤ) else 0) := by
    intro m _ c _
    show (fast_cumsum_sub_one
        (fun i c => one_hot_with_dtype (selectedExpert g e tk m)
          ((argsort (fun s => -1 * rowMax g e s) n).getD i 0) c)
        (rankOf (fun s => -1 * rowMax g e s) n t) c
      * one_hot_with_dtype (selectedExpert g e tk m)
          ((argsort (fun s => -1 * rowMax g e s) n).getD
            (rankOf (fun s => -1 * rowMax g e s) n t) 0) c)
      * one_hot_with_dtype (selectedExpert g e tk m) t c = _
    rw [hinv]
    simp only [one_hot_with_dtype, fast_cumsum_sub_one]
    by_cases h : selectedExpert g e tk m t = c <;> simp [h]
  cases k with
  | zero =>
    unfold ec_locations
    rw [List.getD_cons_zero, ec_mask_eq e tk g 0 hk]
    rw [Finset.sum_congr rfl (hsummand 0 hk)]
    rw [sum_mul_onehot_int e
      (fun c => (∑ i ∈ Finset.range (rankOf (fun s => -1 * rowMax g e s) n t + 1),
        if selectedExpert g e tk 0
            ((argsort (fun s => -1 * rowMax g e s) n).getD i 0) = c
          then (1 : ℤ) else 0) - 1) _ hsel]
    simp [ec_acc_base]
  | succ k1 =>
    unfold ec_locations
    rw [List.getD_cons_succ]
    rw [getD_map_range (tk - 1) k1 _ _ (by omega)]
    rw [ec_mask_eq e tk g (k1 + 1) hk]
    have hsummand2 : ∀ c ∈ Finset.range e,
        (ec_compute_location n e g true (one_hot_with_dtype (selectedExpert g e tk (k1 + 1))) t c
            + ec_acc_base n e tk g (k1 + 1) c)
          * one_hot_with_dtype (selectedExpert g e tk (k1 + 1)) t c
        = ((∑ i ∈ Finset.range (rankOf (fun s => -1 * rowMax g e s) n t + 1),
            if selectedExpert g e tk (k1 + 1)
                ((argsort (fun s => -1 * rowMax g e s) n).getD i 0) = c
              then (1 : ℤ) else 0) - 1
            + ec_acc_base n e tk g (k1 + 1) c)
          * (if selectedExpert g e tk (k1 + 1) t = c then (1 : ℤ) else 0) := by
      intro c hc
      have hbase := hsummand (k1 + 1) hk c hc
      by_cases h : selectedExpert g e tk (k1 + 1) t = c
      · have hm : one_hot_with_dtype (selectedExpert g e tk (k1 + 1)) t c = 1 := by
          simp [one_hot_with_dtype, h]
        rw [add_mul, hbase, hm, mul_one, if_pos h]
        ring
      · have hm : one_hot_with_dtype (selectedExpert g e tk (k1 + 1)) t c = 0 := by
          simp [one_hot_with_dtype, h]
        rw [hm, mul_zero, if_neg h, mul_zero]
    rw [Finset.sum_congr rfl hsummand2]
    rw [sum_mul_onehot_int e
      (fun c => (∑ i ∈ Finset.range (rankOf (fun s => -1 * rowMax g e s) n t + 1),
        if selectedExpert g e tk (k1 + 1)
            ((argsort (fun s => -1 * rowMax g e s) n).getD i 0) = c
          then (1 : ℤ) else 0) - 1
        + ec_acc_base n e tk g (k1 + 1) c) _ hsel]

/-! ### Slot uniqueness and ordering -/

lemma loc_strict_nonbpr (n e tk : ℕ) (g : ℕ → ℕ → ℚ) (k : ℕ)
    (hk : k < tk) (he : 0 < e) (hke : tk ≤ e) (t u : ℕ) (htu : t < u)
    (hsame : selectedExpert g e tk k t = selectedExpert g e tk k u) :
    (ec_locations n e tk g false).getD k (fun _ => 0) t
      < (ec_locations n e tk g false).getD k (fun _ => 0) u := by
  rw [ec_locations_getD_nonbpr n e tk g k hk he hke t,
    ec_locations_getD_nonbpr n e tk g k hk he hke u, hsame]
  have hcount : countUpTo (selectedExpert g e tk k) (selectedExpert g e tk k u) t
      < countUpTo (selectedExpert g e tk k) (selectedExpert g e tk k u) u := by
    unfold countUpTo
    refine prefix_sum_lt _ (fun i => by positivity) t u htu ?_
    simp
  omega

lemma loc_strict_bpr (n e tk : ℕ) (g : ℕ → ℕ → ℚ) (k : ℕ)
    (hk : k < tk) (he : 0 < e) (hke : tk ≤ e) (t u : ℕ) (ht : t < n) (hu : u < n)
    (hsame : selectedExpert g e tk k t = selectedExpert g e tk k u)
    (hP : priorityBefore g e t u) :
    (ec_locations n e tk g true).getD k (fun _ => 0) t
      < (ec_locations n e tk g true).getD k (fun _ => 0) u := by
  rw [ec_locations_getD_bpr n e tk g k hk he hke t ht,
    ec_locations_getD_bpr n e tk g k hk he hke u hu, hsame]
  have hrank : rankOf (fun s => -1 * rowMax g e s) n t
      < rankOf (fun s => -1 * rowMax g e s) n u := by
    refine rankOf_strict _ n t u ht hu ?_
    rcases hP with h | ⟨h, h'⟩
    · left
      show -1 * rowMax g e t < -1 * rowMax g e u
      linarith
    · right
      refine ⟨?_, h'⟩
      show -1 * rowMax g e t = -1 * rowMax g e u
      rw [h]
  have hsum : (∑ i ∈ Finset.range (rankOf (fun s => -1 * rowMax g e s) n t + 1),
        if selectedExpert g e tk k
            ((argsort (fun s => -1 * rowMax g e s) n).getD i 0)
          = selectedExpert g e tk k u then (1 : ℤ) else 0)
      < ∑ i ∈ Finset.range (rankOf (fun s => -1 * rowMax g e s) n u + 1),
        if selectedExpert g e tk k
            ((argsort (fun s => -1 * rowMax g e s) n).getD i 0)
          = selectedExpert g e tk k u then (1 : ℤ) else 0 := by
    refine prefix_sum_lt _ (fun i => by positivity) _ _ hrank ?_
    rw [argsort_inv _ n u hu]
    simp
  omega

lemma loc_ne_of_ne (n e tk : ℕ) (g : ℕ → ℕ → ℚ) (bpr : Bool) (k : ℕ)
    (hk : k < tk) (he : 0 < e) (hke : tk ≤ e) (t u : ℕ) (ht : t < n) (hu : u < n)
    (htu : t ≠ u)
    (hsame : selectedExpert g e tk k t = selectedExpert g e tk k u) :
    (ec_locations n e tk g bpr).getD k (fun _ => 0) t
      ≠ (ec_locations n e tk g bpr).getD k (fun _ => 0) u := by
  cases bpr with
  | false =>
    rcases lt_or_gt_of_ne htu with hlt | hgt
    · exact ne_of_lt (loc_strict_nonbpr n e tk g k hk he hke t u hlt hsame)
    · exact (ne_of_lt (loc_strict_nonbpr n e tk g k hk he hke u t hgt hsame.symm)).symm
  | true =>
    have htri : priorityBefore g e t u ∨ priorityBefore g e u t := by
      unfold priorityBefore
      rcases lt_trichotomy (rowMax g e t) (rowMax g e u) with h | h | h
      · right; left; exact h
      · rcases lt_or_gt_of_ne htu with h' | h'
        · left; right; exact ⟨h, h'⟩
        · right; right; exact ⟨h.symm, h'⟩
      · left; left; exact h
    rcases htri with h | h
    · exact ne_of_lt (loc_strict_bpr n e tk g k hk he hke t u ht hu hsame h)
    · exact (ne_of_lt (loc_strict_bpr n e tk g k hk he hke u t hu ht hsame.symm h)).symm

/-! ### Claim C3 -/

/-- C3: in every Slot Assigner output, for each rank `k`, two distinct tokens
routed to the same expert never share a slot location (so no two tokens share
an (expert, location) pair at that rank, in particular among those with
location < capacity); among tokens routed to the same expert, slots are
assigned in token-index order when batch-prioritized routing is off, and in
descending top-1 gate-confidence order (ties broken by token index) when it is
on, with locations reported in original token order. -/
theorem claim_C3 (n e tk : ℕ) (g : ℕ → ℕ → ℚ) (dt : DType) (cf : ℚ) (fp bpr : Bool)
    (he : 0 < e) (hke : tk ≤ e) (k : ℕ) (hk : k < tk) (t u : ℕ)
    (ht : t < n) (hu : u < n)
    (hsame : (extract_critical n e g dt tk cf fp bpr).1.indices_s.getD k (fun _ => 0) t
      = (extract_critical n e g dt tk cf fp bpr).1.indices_s.getD k (fun _ => 0) u) :
    (t ≠ u →
      (extract_critical n e g dt tk cf fp bpr).1.locations_s.getD k (fun _ => 0) t
        ≠ (extract_critical n e g dt tk cf fp bpr).1.locations_s.getD k (fun _ => 0) u) ∧
    (bpr = false → t < u →
      (extract_critical n e g dt tk cf fp bpr).1.locations_s.getD k (fun _ => 0) t
        < (extract_critical n e g dt tk cf fp bpr).1.locations_s.getD k (fun _ => 0) u) ∧
    (bpr = true → priorityBefore g e t u →
      (extract_critical n e g dt tk cf fp bpr).1.locations_s.getD k (fun _ => 0) t
        < (extract_critical n e g dt tk cf fp bpr).1.locations_s.getD k (fun _ => 0) u) := by
  have hsame2 : selectedExpert g e tk k t = selectedExpert g e tk k u := by
    rw [← ec_indices_getD e tk g k hk]
    exact hsame
  refine ⟨?_, ?_, ?_⟩
  · intro htu
    exact loc_ne_of_ne n e tk g bpr k hk he hke t u ht hu htu hsame2
  · rintro rfl htu
    exact loc_strict_nonbpr n e tk g k hk he hke t u htu hsame2
  · rintro rfl hP
    exact loc_strict_bpr n e tk g k hk he hke t u ht hu hsame2 hP

/-- Witness for C3 at a concrete 2-token scenario: tokens 0 and 1 are both
routed to expert 0 and receive different slots. -/
theorem claim_C3_witness :
    (extract_critical 2 2 flatGates DType.f32 1 1 false false).1.locations_s.getD 0 (fun _ => 0) 0
      ≠ (extract_critical 2 2 flatGates DType.f32 1 1 false false).1.locations_s.getD 0 (fun _ => 0) 1 :=
  (claim_C3 2 2 1 flatGates DType.f32 1 false false (by decide) (by decide) 0 (by decide)
    0 1 (by decide) (by decide) (by decide)).1 (by decide)

/-! ### Claim C4 -/

/-- C4: the load-balance loss equals `num_global_experts · Σ_c(me_c · ce_c)`
where, when the gate dtype is float32 or `fp32_gate` is set, `me`/`ce` are
per-expert column sums and the product is additionally divided by
`num_tokens²`; otherwise `me`/`ce` are per-expert column means with no extra
division. -/
theorem claim_C4 (n e : ℕ) (g : ℕ → ℕ → ℚ) (dt : DType) (m : ℕ → ℕ → ℤ)
    (nge : ℕ) (fp : Bool) :
    load_balance n e g dt m nge fp =
      if dt = DType.f32 ∨ fp then
        (nge : ℚ) * (∑ c ∈ Finset.range e, colSum n g c * colSum n (maskQ m) c)
          / ((n : ℚ) * (n : ℚ))
      else
        (nge : ℚ) * (∑ c ∈ Finset.range e, colMean n g c * colMean n (maskQ m) c) := by
  simp only [load_balance, colSum, colMean, maskQ]
  split_ifs with h <;> ring

/-! ### Claim C6 -/

lemma natCeilDiv_eq (n e : ℕ) (he : 0 < e) :
    (((n + e - 1) / e : ℕ) : ℤ) = ⌈(n : ℚ) / (e : ℚ)⌉ := by
  have h1 : (n + e - 1) / e * e ≤ n + e - 1 := Nat.div_mul_le_self _ _
  have h2 : n + e - 1 < (n + e - 1) / e * e + e := Nat.lt_div_mul_add he
  have hsub : ((n + e - 1 : ℕ) : ℤ) = (n : ℤ) + (e : ℤ) - 1 := by omega
  have hz1 : (((n + e - 1) / e : ℕ) : ℤ) * (e : ℤ) ≤ (n : ℤ) + (e : ℤ) - 1 := by
    rw [← hsub]
    exact_mod_cast h1
  have hz2 : (n : ℤ) + (e : ℤ) - 1 < (((n + e - 1) / e : ℕ) : ℤ) * (e : ℤ) + (e : ℤ) := by
    rw [← hsub]
    exact_mod_cast h2
  have hepos : (0 : ℚ) < (e : ℚ) := by exact_mod_cast he
  symm
  rw [Int.ceil_eq_iff]
  constructor
  · rw [lt_div_iff hepos]
    have hz3 : ((((n + e - 1) / e : ℕ) : ℤ) - 1) * (e : ℤ) < (n : ℤ) := by
      have hx : (((n + e - 1) / e : ℕ) : ℤ) * (e : ℤ) - (e : ℤ)
          = ((((n + e - 1) / e : ℕ) : ℤ) - 1) * (e : ℤ) := by ring
      linarith [hx.symm.le, hx.le]
    exact_mod_cast hz3
  · rw [div_le_iff hepos]
    have hz4 : (n : ℤ) ≤ (((n + e - 1) / e : ℕ) : ℤ) * (e : ℤ) := by linarith
    exact_mod_cast hz4

/-- Counterexample to C6 as stated: with 1 token, 1 expert, `top_k = 1` and
`capacity_factor = 1/2`, the code returns capacity 0, but
`top_k · capacity_factor · ⌈num_tokens/num_global_experts⌉ = 1/2`. -/
theorem claim_C6_counterexample :
    ¬ (((extract_critical 1 1 (fun _ _ => 1) DType.f32 1 (1 / 2) false false).1.capacity : ℚ)
        = (1 : ℚ) * (1 / 2) * (⌈((1 : ℕ) : ℚ) / ((1 : ℕ) : ℚ)⌉ : ℚ)) := by
  have hcap : (extract_critical 1 1 (fun _ _ => 1) DType.f32 1 (1 / 2) false false).1.capacity
      = 0 := by
    rw [extract_critical_fst]
    show 1 * (pyInt ((1 / 2 : ℚ) * (((1 + 1 - 1) / 1 : ℕ) : ℚ))).toNat = 0
    have h1 : ((1 / 2 : ℚ) * (((1 + 1 - 1) / 1 : ℕ) : ℚ)) = 1 / 2 := by norm_num
    rw [h1]
    have h2 : pyInt (1 / 2 : ℚ) = 0 := by
      unfold pyInt
      rw [if_neg (by norm_num)]
      rw [Int.floor_eq_zero_iff]
      constructor <;> norm_num
    rw [h2]
    rfl
  rw [hcap]
  norm_num

/-- C6 amended: the returned capacity equals
`top_k · ⌊capacity_factor · ⌈num_tokens / num_global_experts⌉⌋` — the code
truncates `capacity_factor · ceil(num_tokens/num_global_experts)` to an
integer with `int(...)` before multiplying by `top_k`. -/
theorem claim_C6_amended (n e : ℕ) (g : ℕ → ℕ → ℚ) (dt : DType) (tk : ℕ) (cf : ℚ)
    (fp bpr : Bool) (hcf : 0 < cf) (he : 0 < e) :
    (extract_critical n e g dt tk cf fp bpr).1.capacity
      = tk * (⌊cf * ((⌈(n : ℚ) / (e : ℚ)⌉ : ℤ) : ℚ)⌋).toNat := by
  rw [extract_critical_fst]
  show tk * (pyInt (cf * (((n + e - 1) / e : ℕ) : ℚ))).toNat = _
  have harg : (0 : ℚ) ≤ cf * (((n + e - 1) / e : ℕ) : ℚ) := by positivity
  have hcast : ((((n + e - 1) / e : ℕ) : ℚ)) = ((⌈(n : ℚ) / (e : ℚ)⌉ : ℤ) : ℚ) := by
    rw [← natCeilDiv_eq n e he]
    exact_mod_cast rfl
  unfold pyInt
  rw [if_neg (not_lt.mpr harg), hcast]

/-- Witness for the amended C6 at `n = 3`, `e = 2`, `top_k = 2`,
`capacity_factor = 1`. -/
theorem claim_C6_amended_witness :
    (extract_critical 3 2 (fun _ _ => 1) DType.f32 2 1 false false).1.capacity
      = 2 * (⌊(1 : ℚ) * ((⌈(3 : ℚ) / ((2 : ℕ) : ℚ)⌉ : ℤ) : ℚ)⌋).toNat :=
  claim_C6_amended 3 2 (fun _ _ => 1) DType.f32 2 1 false false (by norm_num) (by norm_num)

/-! ### Claim C10 -/

/-- C10: for `top_k = 1` there is exactly one gate stream and it carries the
raw gate score of each token at its selected expert — no normalization and no
eps clamping is applied. -/
theorem claim_C10 (n e : ℕ) (g : ℕ → ℕ → ℚ) (dt : DType) (cf : ℚ) (fp bpr : Bool)
    (he : 0 < e) :
    (extract_critical n e g dt 1 cf fp bpr).1.gates_s.length = 1 ∧
    ∀ t, (extract_critical n e g dt 1 cf fp bpr).1.gates_s.getD 0 (fun _ => 0) t
      = g t ((extract_critical n e g dt 1 cf fp bpr).1.indices_s.getD 0 (fun _ => 0) t) := by
  constructor
  · rw [extract_critical_fst]
    show (ec_gates e 1 g dt).length = 1
    simp [ec_gates, ec_gatesRaw, ec_masks, ec_indices]
  · intro t
    rw [extract_critical_fst]
    show (ec_gates e 1 g dt).getD 0 (fun _ => 0) t
      = g t ((ec_indices e 1 g).getD 0 (fun _ => 0) t)
    rw [ec_indices_getD e 1 g 0 (by omega)]
    have hng : ec_gates e 1 g dt = ec_gatesRaw e 1 g := by simp [ec_gates]
    rw [hng]
    exact ec_gatesRaw_getD e 1 g 0 (by omega) he (by omega) t

/-- Witness for C10 at a concrete 1-expert instance. -/
theorem claim_C10_witness :
    (extract_critical 1 1 (fun _ _ => 0) DType.f32 1 1 false false).1.gates_s.length = 1 ∧
    ∀ t, (extract_critical 1 1 (fun _ _ => 0) DType.f32 1 1 false false).1.gates_s.getD 0
        (fun _ => 0) t
      = (fun _ _ => (0 : ℚ)) t
          ((extract_critical 1 1 (fun _ _ => 0) DType.f32 1 1 false false).1.indices_s.getD 0
            (fun _ => 0) t) :=
  claim_C10 1 1 (fun _ _ => 0) DType.f32 1 false false (by decide)

/-! ### Claim C5 -/

lemma ec_gatesRaw_length (e tk : ℕ) (g : ℕ → ℕ → ℚ) :
    (ec_gatesRaw e tk g).length = tk := by
  simp [ec_gatesRaw, ec_masks, ec_indices]

lemma ec_gatesRaw_sum (n e tk : ℕ) (g : ℕ → ℕ → ℚ) (he : 0 < e) (hke : tk ≤ e) (t : ℕ) :
    ((ec_gatesRaw e tk g).map (fun gs => gs t)).sum
      = ∑ j ∈ Finset.range tk, g t (selectedExpert g e tk j t) := by
  unfold ec_gatesRaw ec_masks ec_indices
  rw [List.map_map, List.map_map, List.map_map, list_sum_map_range]
  refine Finset.sum_congr rfl (fun j hj => ?_)
  have hj' : j < tk := Finset.mem_range.mp hj
  show (∑ c ∈ Finset.range e,
      g t c * ((one_hot_with_dtype (fun s => (topkIdx (g s) e tk).getD j 0) t c : ℤ) : ℚ)) = _
  unfold one_hot_with_dtype
  exact sum_mul_onehot e (g t) _ (selectedExpert_lt g e tk j t he hj' hke)

/-- C5: for `top_k > 1`, every returned gate weight is the raw per-rank gate
score divided by `max(eps, Σ_k raw)` (the clamped sum of the token's raw
top-k scores), and consequently the top-k weights of a token sum to 1
whenever the raw sum is at least eps. -/
theorem claim_C5 (n e tk : ℕ) (g : ℕ → ℕ → ℚ) (dt : DType) (cf : ℚ) (fp bpr : Bool)
    (he : 0 < e) (htk : 1 < tk) (hke : tk ≤ e) (k : ℕ) (hk : k < tk) (t : ℕ) :
    ((extract_critical n e g dt tk cf fp bpr).1.gates_s.getD k (fun _ => 0) t
      = g t ((extract_critical n e g dt tk cf fp bpr).1.indices_s.getD k (fun _ => 0) t)
        / max (∑ j ∈ Finset.range tk,
            g t ((extract_critical n e g dt tk cf fp bpr).1.indices_s.getD j (fun _ => 0) t))
          (finfo_eps dt)) ∧
    (finfo_eps dt ≤ ∑ j ∈ Finset.range tk,
        g t ((extract_critical n e g dt tk cf fp bpr).1.indices_s.getD j (fun _ => 0) t) →
      ∑ j ∈ Finset.range tk,
        (extract_critical n e g dt tk cf fp bpr).1.gates_s.getD j (fun _ => 0) t = 1) := by
  have hidx : ∀ j, j < tk →
      (extract_critical n e g dt tk cf fp bpr).1.indices_s.getD j (fun _ => 0)
        = selectedExpert g e tk j := by
    intro j hj
    rw [extract_critical_fst]
    exact ec_indices_getD e tk g j hj
  have hsum_idx : (∑ j ∈ Finset.range tk,
      g t ((extract_critical n e g dt tk cf fp bpr).1.indices_s.getD j (fun _ => 0) t))
      = ∑ j ∈ Finset.range tk, g t (selectedExpert g e tk j t) :=
    Finset.sum_congr rfl (fun j hj => by rw [hidx j (Finset.mem_range.mp hj)])
  have hgates : ∀ j, j < tk →
      (extract_critical n e g dt tk cf fp bpr).1.gates_s.getD j (fun _ => 0) t
        = g t (selectedExpert g e tk j t)
          / max (∑ i ∈ Finset.range tk, g t (selectedExpert g e tk i t)) (finfo_eps dt) := by
    intro j hj
    rw [extract_critical_fst]
    show (ec_gates e tk g dt).getD j (fun _ => 0) t = _
    unfold ec_gates
    rw [if_pos htk]
    have hjlen : j < ((ec_gatesRaw e tk g).map (fun gs s =>
        gs s / max (((ec_gatesRaw e tk g).map (fun gs => gs s)).sum) (finfo_eps dt))).length := by
      rw [List.length_map, ec_gatesRaw_length]; exact hj
    rw [List.getD_eq_getElem _ _ hjlen, List.getElem_map]
    have hjraw : j < (ec_gatesRaw e tk g).length := by rw [ec_gatesRaw_length]; exact hj
    have helem : (ec_gatesRaw e tk g)[j] = (ec_gatesRaw e tk g).getD j (fun _ => 0) :=
      (List.getD_eq_getElem _ _ hjraw).symm
    show (ec_gatesRaw e tk g)[j] t
        / max (((ec_gatesRaw e tk g).map (fun gs => gs t)).sum) (finfo_eps dt) = _
    rw [helem, ec_gatesRaw_getD e tk g j hj he hke t, ec_gatesRaw_sum n e tk g he hke t]
  constructor
  · rw [hgates k hk, hidx k hk, hsum_idx]
  · intro hle
    rw [hsum_idx] at hle
    have heps : (0 : ℚ) < finfo_eps dt := by
      cases dt <;> norm_num [finfo_eps]
    have hpos : (0 : ℚ) < ∑ j ∈ Finset.range tk, g t (selectedExpert g e tk j t) :=
      lt_of_lt_of_le heps hle
    have hmax : max (∑ j ∈ Finset.range tk, g t (selectedExpert g e tk j t)) (finfo_eps dt)
        = ∑ j ∈ Finset.range tk, g t (selectedExpert g e tk j t) :=
      max_eq_left hle
    rw [Finset.sum_congr rfl (fun j hj => hgates j (Finset.mem_range.mp hj)), hmax,
      ← Finset.sum_div]
    exact div_self (ne_of_gt hpos)

/-- Witness for C5 at `top_k = 2` on the all-ones 2-expert matrix. -/
theorem claim_C5_witness :
    ((extract_critical 2 2 (fun _ _ => 1) DType.f32 2 1 false false).1.gates_s.getD 0
        (fun _ => 0) 0
      = (fun _ _ => (1 : ℚ)) 0
          ((extract_critical 2 2 (fun _ _ => 1) DType.f32 2 1 false false).1.indices_s.getD 0
            (fun _ => 0) 0)
        / max (∑ j ∈ Finset.range 2,
            (fun _ _ => (1 : ℚ)) 0
              ((extract_critical 2 2 (fun _ _ => 1) DType.f32 2 1 false false).1.indices_s.getD j
                (fun _ => 0) 0))
          (finfo_eps DType.f32)) ∧
    (finfo_eps DType.f32 ≤ ∑ j ∈ Finset.range 2,
        (fun _ _ => (1 : ℚ)) 0
          ((extract_critical 2 2 (fun _ _ => 1) DType.f32 2 1 false false).1.indices_s.getD j
            (fun _ => 0) 0) →
      ∑ j ∈ Finset.range 2,
        (extract_critical 2 2 (fun _ _ => 1) DType.f32 2 1 false false).1.gates_s.getD j
          (fun _ => 0) 0 = 1) :=
  claim_C5 2 2 2 (fun _ _ => 1) DType.f32 1 false false (by decide) (by decide) (by decide)
    0 (by decide) 0

/-! ### Claim C2 -/

lemma testGates_sel0 : selectedExpert testGates 2 1 0 0 = 0 := by
  norm_num [selectedExpert, topkIdx, List.insertionSort, List.orderedInsert, descKey,
    testGates, List.range_succ]

lemma testGates_sel1 : selectedExpert testGates 2 1 0 1 = 0 := by
  norm_num [selectedExpert, topkIdx, List.insertionSort, List.orderedInsert, descKey,
    testGates, List.range_succ]

lemma testGates_sel2 : selectedExpert testGates 2 1 0 2 = 1 := by
  norm_num [selectedExpert, topkIdx, List.insertionSort, List.orderedInsert, descKey,
    testGates, List.range_succ]

lemma testGates_sel3 : selectedExpert testGates 2 1 0 3 = 1 := by
  norm_num [selectedExpert, topkIdx, List.insertionSort, List.orderedInsert, descKey,
    testGates, List.range_succ]

/-- C2: on the gate matrix `[[0.9,0.1],[0.8,0.2],[0.3,0.7],[0.4,0.6]]` with
`top_k = 1` and `capacity_factor = 1`, `extract_critical` returns capacity 2,
expert indices `[0,0,1,1]`, slot locations `[0,1,0,1]` and gate weights
`[0.9, 0.8, 0.7, 0.6]` (exact in the rational embedding). -/
theorem claim_C2 :
    (extract_critical 4 2 testGates DType.f32 1 1 false false).1.capacity = 2 ∧
    List.map ((extract_critical 4 2 testGates DType.f32 1 1 false false).1.indices_s.getD 0
      (fun _ => 0)) [0, 1, 2, 3] = [0, 0, 1, 1] ∧
    List.map ((extract_critical 4 2 testGates DType.f32 1 1 false false).1.locations_s.getD 0
      (fun _ => 0)) [0, 1, 2, 3] = [0, 1, 0, 1] ∧
    List.map ((extract_critical 4 2 testGates DType.f32 1 1 false false).1.gates_s.getD 0
      (fun _ => 0)) [0, 1, 2, 3] = [9/10, 8/10, 7/10, 6/10] := by
  have hidx : (extract_critical 4 2 testGates DType.f32 1 1 false false).1.indices_s.getD 0
      (fun _ => 0) = selectedExpert testGates 2 1 0 := by
    rw [extract_critical_fst]
    exact ec_indices_getD 2 1 testGates 0 (by omega)
  have hloc : ∀ t, (extract_critical 4 2 testGates DType.f32 1 1 false false).1.locations_s.getD 0
      (fun _ => 0) t
      = countUpTo (selectedExpert testGates 2 1 0) (selectedExpert testGates 2 1 0 t) t - 1
        + ec_acc_base 4 2 1 testGates 0 (selectedExpert testGates 2 1 0 t) := by
    intro t
    rw [extract_critical_fst]
    exact ec_locations_getD_nonbpr 4 2 1 testGates 0 (by omega) (by omega) (by omega) t
  have hg : ∀ t, (extract_critical 4 2 testGates DType.f32 1 1 false false).1.gates_s.getD 0
      (fun _ => 0) t = testGates t (selectedExpert testGates 2 1 0 t) := by
    intro t
    rw [extract_critical_fst]
    show (ec_gates 2 1 testGates DType.f32).getD 0 (fun _ => 0) t = _
    have hng : ec_gates 2 1 testGates DType.f32 = ec_gatesRaw 2 1 testGates := by
      simp [ec_gates]
    rw [hng]
    exact ec_gatesRaw_getD 2 1 testGates 0 (by omega) (by omega) (by omega) t
  refine ⟨?_, ?_, ?_, ?_⟩
  · rw [extract_critical_fst]
    show 1 * (pyInt ((1 : ℚ) * (((4 + 2 - 1) / 2 : ℕ) : ℚ))).toNat = 2
    have h1 : ((1 : ℚ) * (((4 + 2 - 1) / 2 : ℕ) : ℚ)) = 2 := by norm_num
    rw [h1]
    have h2 : pyInt (2 : ℚ) = 2 := by
      unfold pyInt
      rw [if_neg (by norm_num)]
      norm_num
    rw [h2]
    rfl
  · simp only [List.map_cons, List.map_nil, hidx, testGates_sel0, testGates_sel1,
      testGates_sel2, testGates_sel3]
  · simp only [List.map_cons, List.map_nil, hloc]
    simp only [countUpTo, ec_acc_base, Finset.sum_range_succ, Finset.sum_range_zero,
      testGates_sel0, testGates_sel1, testGates_sel2, testGates_sel3]
    norm_num
  · simp only [List.map_cons, List.map_nil, hg, testGates_sel0, testGates_sel1,
      testGates_sel2, testGates_sel3]
    norm_num [testGates]

/-! ### Claim C8 -/

/-- Counterexample to C8 as stated: binding a CPU kernel handle with
`generate_cpu_kernel` always succeeds (no dtype check happens at binding
time); the descriptive error for an unsupported dtype is raised only when the
bound kernel function is invoked, here with a float16 input. -/
theorem claim_C8_counterexample :
    (generate_cpu_kernel 0).isOk = true ∧
    (generate_cpu_kernel 0).bind (fun f => f DType.f16)
      = Except.error "CPU kernel only supports float32 and float64!" := by
  exact ⟨rfl, rfl⟩

/-- C8 amended: on the CPU backend path, binding the kernel handle always
succeeds, and an unsupported element dtype raises the descriptive error
`"CPU kernel only supports float32 and float64!"` at invocation time (inside
the bound primitive call), not at binding time. -/
theorem claim_C8_amended (kernel_type : ℕ) (dt : DType)
    (h32 : dt ≠ DType.f32) (h64 : dt ≠ DType.f64) :
    (generate_cpu_kernel kernel_type).isOk = true ∧
    (generate_cpu_kernel kernel_type).bind (fun f => f dt)
      = Except.error "CPU kernel only supports float32 and float64!" := by
  refine ⟨rfl, ?_⟩
  show (if dt = DType.f32 then Except.ok (CpuKernelResult.fp32 kernel_type)
    else if dt = DType.f64 then Except.ok (CpuKernelResult.fp64 kernel_type)
    else Except.error "CPU kernel only supports float32 and float64!") = _
  rw [if_neg h32, if_neg h64]

/-- Witness for the amended C8 with kernel type 7 and dtype float16. -/
theorem claim_C8_amended_witness :
    (generate_cpu_kernel 7).isOk = true ∧
    (generate_cpu_kernel 7).bind (fun f => f DType.f16)
      = Except.error "CPU kernel only supports float32 and float64!" :=
  claim_C8_amended 7 DType.f16 (by decide) (by decide)

/-! ### Claim C9 -/

/-- Counterexample to C9 as stated: the kernel pool is keyed by the device
class (`is_cuda`) alone, not by `(device-class, dtype)`.  A first dispatcher
with compute dtype float16 populates the pool for the CUDA class; a second
dispatcher with compute dtype float32 on the same device class is then bound
to the first dispatcher's float16-specialized handles — the same handles, and
not matching its own dtype. -/
theorem claim_C9_counterexample :
    (update_bind [] (dispatcher_init false DType.f16) true).2.handles
      = some { dtype := DType.f16, is_cuda := true } ∧
    (update_bind (update_bind [] (dispatcher_init false DType.f16) true).1
        (dispatcher_init false DType.f32) true).2.handles
      = some { dtype := DType.f16, is_cuda := true } ∧
    (dispatcher_init false DType.f32).dtype = DType.f32 := by
  exact ⟨rfl, rfl, rfl⟩

/-- C9 amended: kernel handles are memoized process-wide keyed by the device
class alone; whenever the pool already holds an entry for the incoming device
class, a dispatcher binding against it receives exactly the stored handles —
whatever dtype they were specialized for — and the pool is left unchanged. -/
theorem claim_C9_amended (pool : List (Bool × KernelHandles)) (st : DispatcherBind)
    (cuda : Bool) (h : KernelHandles) (hpool : pool.lookup cuda = some h)
    (hnew : st.is_cuda ≠ some cuda) :
    update_bind pool st cuda
      = (pool, { st with is_cuda := some cuda, handles := some h }) := by
  unfold update_bind
  rw [if_pos hnew, hpool]

/-- Witness for the amended C9: a float32 dispatcher binding against a pool
already holding float16 CUDA handles receives those float16 handles. -/
theorem claim_C9_amended_witness :
    update_bind [(true, { dtype := DType.f16, is_cuda := true })]
        (dispatcher_init false DType.f32) true
      = ([(true, { dtype := DType.f16, is_cuda := true })],
         { dispatcher_init false DType.f32 with
             is_cuda := some true,
             handles := some { dtype := DType.f16, is_cuda := true } }) :=
  claim_C9_amended [(true, { dtype := DType.f16, is_cuda := true })]
    (dispatcher_init false DType.f32) true { dtype := DType.f16, is_cuda := true }
    rfl (by decide)

/-! ### Claim C7 -/

/-- C7: when `is_postscore` is true, `encode` runs the scatter with an
all-ones weight stream per rank (gates are left for `decode`) and its backward
produces no gate gradients; when `is_postscore` is false, `encode` applies the
real gates and its backward returns, for each gate stream, the per-token dot
product of the original input row with the upstream-gradient buffer row of the
token's (expert, location) slot. -/
theorem claim_C7 (c : DispatchConfig) (x G : ℕ → ℕ → ℚ) :
    (c.is_postscore = true → encode c x = GatingEncoder_forward c x (ones_gates c)) ∧
    (GatingEncoder_backward c x [] G).2 = [] ∧
    (c.is_postscore = false → encode c x = GatingEncoder_forward c x c.gates_) ∧
    (c.gates_.isEmpty = false → ∀ k, k < c.indices_.length → k < c.locations_.length →
      ∀ t, 0 ≤ c.locations_.getD k (fun _ => 0) t →
      c.locations_.getD k (fun _ => 0) t < c.capacity →
      (GatingEncoder_backward c x c.gates_ G).2.getD k (fun _ => 0) t
        = ∑ d ∈ Finset.range c.model_dim,
            x t d * G (c.indices_.getD k (fun _ => 0) t * c.capacity
              + (c.locations_.getD k (fun _ => 0) t).toNat) d) := by
  refine ⟨?_, ?_, ?_, ?_⟩
  · intro hp
    have h2 : gates_h2 c ([] : List (ℕ → ℚ)) = gates_h2 c (ones_gates c) := by
      unfold gates_h2
      simp
    unfold encode
    rw [hp, if_pos rfl]
    unfold GatingEncoder_forward
    rw [h2]
  · rfl
  · intro hp
    unfold encode
    rw [hp, if_neg Bool.false_ne_true]
  · intro hne k hk1 hk2 t hl0 hlC
    have hmain : (GatingEncoder_backward c x c.gates_ G).2
        = (c.indices_.zip c.locations_).map (fun il =>
            func_bwd_gate c.capacity c.model_dim il.1 il.2 x G) := by
      unfold GatingEncoder_backward
      rw [hne]
      rfl
    rw [hmain]
    have hzip : k < (c.indices_.zip c.locations_).length := by
      rw [List.length_zip]; omega
    rw [List.getD_eq_getElem _ _ (by rw [List.length_map]; exact hzip), List.getElem_map]
    have hz1 : (c.indices_.zip c.locations_)[k]
        = (c.indices_.getD k (fun _ => 0), c.locations_.getD k (fun _ => 0)) := by
      rw [List.getElem_zip]
      rw [List.getD_eq_getElem _ _ hk1, List.getD_eq_getElem _ _ hk2]
    rw [hz1]
    unfold func_bwd_gate
    rw [if_pos ⟨hl0, hlC⟩]

/-- Witness for C7 (prescore gate-gradient part) on a one-token, one-slot
configuration. -/
theorem claim_C7_witness :
    (GatingEncoder_backward
        { num_global_experts := 1, capacity := 1, model_dim := 1, sample_size := 1,
          indices_ := [fun _ => 0], locations_ := [fun _ => (0 : ℤ)],
          gates_ := [fun _ => (1 : ℚ)], is_postscore := false }
        (fun _ _ => 1) [fun _ => (1 : ℚ)] (fun _ _ => 1)).2.getD 0 (fun _ => 0) 0
      = ∑ d ∈ Finset.range 1,
          (fun _ _ => (1 : ℚ)) 0 d * (fun _ _ => (1 : ℚ)) (0 * 1 + (0 : ℤ).toNat) d :=
  (claim_C7
      { num_global_experts := 1, capacity := 1, model_dim := 1, sample_size := 1,
        indices_ := [fun _ => 0], locations_ := [fun _ => (0 : ℤ)],
        gates_ := [fun _ => (1 : ℚ)], is_postscore := false }
      (fun _ _ => 1) (fun _ _ => 1)).2.2.2 rfl 0 (by decide) (by decide) 0 (by decide)
    (by decide)

/-! ### Helpers for the one-hot round trip -/

lemma topkIdx_head_rel (v : ℕ → ℚ) (e tk : ℕ) (he : 0 < e) (htk : 0 < tk)
    (i : ℕ) (hi : i < e) : descKey v ((topkIdx v e tk).getD 0 0) i := by
  have hslen : ((List.range e).insertionSort (descKey v)).length = e := by
    rw [List.length_insertionSort, List.length_range]
  have hlen0 : 0 < (topkIdx v e tk).length := by
    rw [length_topkIdx]; omega
  have h0e : 0 < ((List.range e).insertionSort (descKey v)).length := by omega
  have hhead : (topkIdx v e tk).getD 0 0
      = ((List.range e).insertionSort (descKey v)).get ⟨0, h0e⟩ := by
    rw [List.getD_eq_getElem _ _ hlen0, List.get_eq_getElem]
    exact List.getElem_take _
  have hmem : i ∈ (List.range e).insertionSort (descKey v) := by
    rw [(List.perm_insertionSort (descKey v) (List.range e)).mem_iff]
    simpa using hi
  obtain ⟨j, hji⟩ := List.mem_iff_get.mp hmem
  rcases Nat.eq_zero_or_pos j.val with hj0 | hpos
  · have hjeq : (⟨0, h0e⟩ : Fin ((List.range e).insertionSort (descKey v)).length) = j :=
      Fin.ext hj0.symm
    rw [hhead, ← hji, hjeq]
    right
    exact ⟨rfl, le_refl _⟩
  · have hrel := (List.sorted_insertionSort (descKey v) (List.range e)).rel_get_of_lt
      (a := ⟨0, h0e⟩) (b := j) (Fin.lt_def.mpr hpos)
    rw [hhead, ← hji]
    exact hrel

lemma onehot_sel (g : ℕ → ℕ → ℚ) (e tk t : ℕ) (he : 0 < e) (htk : 0 < tk) (hke : tk ≤ e)
    (h : isOneHotRow g e t) : g t (selectedExpert g e tk 0 t) = 1 := by
  obtain ⟨j, hj, hj1, hj0⟩ := h
  have hsel_lt : selectedExpert g e tk 0 t < e := selectedExpert_lt g e tk 0 t he htk hke
  have hrel := topkIdx_head_rel (g t) e tk he htk j hj
  have hsel_eq : (topkIdx (g t) e tk).getD 0 0 = selectedExpert g e tk 0 t := rfl
  rw [hsel_eq] at hrel
  by_cases hsj : selectedExpert g e tk 0 t = j
  · rw [hsj]; exact hj1
  · have h0 : g t (selectedExpert g e tk 0 t) = 0 := hj0 _ hsel_lt hsj
    rcases hrel with hlt | ⟨heq, _⟩
    · rw [hj1, h0] at hlt
      norm_num at hlt
    · rw [h0, hj1] at heq
      norm_num at heq

lemma sum_over_argsort (v : ℕ → ℚ) (n : ℕ) (f : ℕ → ℤ) :
    ∑ i ∈ Finset.range n, f ((argsort v n).getD i 0) = ∑ s ∈ Finset.range n, f s := by
  have hlen : (argsort v n).length = n := argsort_length v n
  have hmap : (List.range n).map (fun i => (argsort v n).getD i 0) = argsort v n := by
    have h := map_getD_range (argsort v n) 0
    rw [hlen] at h
    exact h
  have h1 : ((List.range n).map (fun i => f ((argsort v n).getD i 0))).sum
      = ((argsort v n).map f).sum := by
    conv_rhs => rw [← hmap, List.map_map]
    rfl
  have h2 : ((argsort v n).map f).sum = ((List.range n).map f).sum :=
    List.Perm.sum_eq ((argsort_perm v n).map f)
  calc ∑ i ∈ Finset.range n, f ((argsort v n).getD i 0)
      = ((List.range n).map (fun i => f ((argsort v n).getD i 0))).sum :=
        (list_sum_map_range n _).symm
    _ = ((List.range n).map f).sum := by rw [h1, h2]
    _ = ∑ s ∈ Finset.range n, f s := list_sum_map_range n f

lemma loc0_bounds (n e tk : ℕ) (g : ℕ → ℕ → ℚ) (bpr : Bool) (C : ℕ)
    (htk : 0 < tk) (he : 0 < e) (hke : tk ≤ e) (t : ℕ) (ht : t < n)
    (hcap : (((Finset.range n).filter
        (fun s => selectedExpert g e tk 0 s = selectedExpert g e tk 0 t)).card : ℤ) ≤ (C : ℤ)) :
    0 ≤ (ec_locations n e tk g bpr).getD 0 (fun _ => 0) t ∧
    (ec_locations n e tk g bpr).getD 0 (fun _ => 0) t < (C : ℤ) := by
  have hcard : (∑ s ∈ Finset.range n,
      if selectedExpert g e tk 0 s = selectedExpert g e tk 0 t then (1 : ℤ) else 0)
      = (((Finset.range n).filter
        (fun s => selectedExpert g e tk 0 s = selectedExpert g e tk 0 t)).card : ℤ) := by
    rw [Finset.sum_boole]
  cases bpr with
  | false =>
    rw [ec_locations_getD_nonbpr n e tk g 0 htk he hke t]
    have hacc : ec_acc_base n e tk g 0 (selectedExpert g e tk 0 t) = 0 := by
      simp [ec_acc_base]
    rw [hacc]
    have hlow : (1 : ℤ) ≤ countUpTo (selectedExpert g e tk 0) (selectedExpert g e tk 0 t) t := by
      unfold countUpTo
      calc (1 : ℤ) = if selectedExpert g e tk 0 t = selectedExpert g e tk 0 t then (1 : ℤ) else 0 := by
            simp
        _ ≤ _ := Finset.single_le_sum (f := fun s =>
            if selectedExpert g e tk 0 s = selectedExpert g e tk 0 t then (1 : ℤ) else 0)
            (fun s _ => by positivity) (Finset.self_mem_range_succ t)
    have hup : countUpTo (selectedExpert g e tk 0) (selectedExpert g e tk 0 t) t ≤ (C : ℤ) := by
      unfold countUpTo
      calc (∑ s ∈ Finset.range (t + 1),
            if selectedExpert g e tk 0 s = selectedExpert g e tk 0 t then (1 : ℤ) else 0)
          ≤ ∑ s ∈ Finset.range n,
            if selectedExpert g e tk 0 s = selectedExpert g e tk 0 t then (1 : ℤ) else 0 :=
            prefix_sum_le_total _ (fun s => by positivity) t n ht
        _ ≤ (C : ℤ) := by rw [hcard]; exact hcap
    omega
  | true =>
    rw [ec_locations_getD_bpr n e tk g 0 htk he hke t ht]
    have hacc : ec_acc_base n e tk g 0 (selectedExpert g e tk 0 t) = 0 := by
      simp [ec_acc_base]
    rw [hacc]
    have hrt : rankOf (fun s => -1 * rowMax g e s) n t < n := rankOf_lt _ n t ht
    have hterm : (if selectedExpert g e tk 0
        ((argsort (fun s => -1 * rowMax g e s) n).getD
          (rankOf (fun s => -1 * rowMax g e s) n t) 0)
        = selectedExpert g e tk 0 t then (1 : ℤ) else 0) = 1 := by
      rw [argsort_inv _ n t ht]
      simp
    have hlow : (1 : ℤ) ≤ ∑ i ∈ Finset.range (rankOf (fun s => -1 * rowMax g e s) n t + 1),
        if selectedExpert g e tk 0 ((argsort (fun s => -1 * rowMax g e s) n).getD i 0)
          = selectedExpert g e tk 0 t then (1 : ℤ) else 0 := by
      calc (1 : ℤ) = _ := hterm.symm
        _ ≤ _ := Finset.single_le_sum (f := fun i =>
            if selectedExpert g e tk 0 ((argsort (fun s => -1 * rowMax g e s) n).getD i 0)
              = selectedExpert g e tk 0 t then (1 : ℤ) else 0)
            (fun i _ => by positivity)
            (Finset.self_mem_range_succ (rankOf (fun s => -1 * rowMax g e s) n t))
    have hup : (∑ i ∈ Finset.range (rankOf (fun s => -1 * rowMax g e s) n t + 1),
        if selectedExpert g e tk 0 ((argsort (fun s => -1 * rowMax g e s) n).getD i 0)
          = selectedExpert g e tk 0 t then (1 : ℤ) else 0) ≤ (C : ℤ) := by
      calc (∑ i ∈ Finset.range (rankOf (fun s => -1 * rowMax g e s) n t + 1),
            if selectedExpert g e tk 0 ((argsort (fun s => -1 * rowMax g e s) n).getD i 0)
              = selectedExpert g e tk 0 t then (1 : ℤ) else 0)
          ≤ ∑ i ∈ Finset.range n,
            if selectedExpert g e tk 0 ((argsort (fun s => -1 * rowMax g e s) n).getD i 0)
              = selectedExpert g e tk 0 t then (1 : ℤ) else 0 :=
            prefix_sum_le_total _ (fun i => by positivity) _ n hrt
        _ = ∑ s ∈ Finset.range n,
            if selectedExpert g e tk 0 s = selectedExpert g e tk 0 t then (1 : ℤ) else 0 :=
            sum_over_argsort (fun s => -1 * rowMax g e s) n
              (fun s => if selectedExpert g e tk 0 s = selectedExpert g e tk 0 t
                then (1 : ℤ) else 0)
        _ ≤ (C : ℤ) := by rw [hcard]; exact hcap
    omega

lemma slot_ne (n e tk : ℕ) (g : ℕ → ℕ → ℚ) (bpr : Bool) (C : ℕ) (k : ℕ)
    (hk : k < tk) (he : 0 < e) (hke : tk ≤ e) (t u : ℕ) (ht : t < n) (hu : u < n)
    (hne : u ≠ t)
    (h0u : 0 ≤ (ec_locations n e tk g bpr).getD k (fun _ => 0) u)
    (hCu : (ec_locations n e tk g bpr).getD k (fun _ => 0) u < (C : ℤ))
    (h0t : 0 ≤ (ec_locations n e tk g bpr).getD k (fun _ => 0) t)
    (hCt : (ec_locations n e tk g bpr).getD k (fun _ => 0) t < (C : ℤ)) :
    (selectedExpert g e tk k u : ℤ) * C + (ec_locations n e tk g bpr).getD k (fun _ => 0) u
      ≠ (selectedExpert g e tk k t : ℤ) * C + (ec_locations n e tk g bpr).getD k (fun _ => 0) t := by
  intro heq
  by_cases hs : selectedExpert g e tk k u = selectedExpert g e tk k t
  · have hloc := loc_ne_of_ne n e tk g bpr k hk he hke u t hu ht hne hs
    apply hloc
    rw [hs] at heq
    exact add_left_cancel heq
  · have hsz : ((selectedExpert g e tk k u : ℤ)) ≠ (selectedExpert g e tk k t : ℤ) := by
      exact_mod_cast hs
    rcases lt_or_gt_of_ne hsz with hlt | hgt
    · have h2 : ((selectedExpert g e tk k u : ℤ) + 1) * C ≤ (selectedExpert g e tk k t : ℤ) * C :=
        mul_le_mul_of_nonneg_right (by omega) (by positivity)
      nlinarith [h2, hCu, h0t, heq]
    · have h2 : ((selectedExpert g e tk k t : ℤ) + 1) * C ≤ (selectedExpert g e tk k u : ℤ) * C :=
        mul_le_mul_of_nonneg_right (by omega) (by positivity)
      nlinarith [h2, hCt, h0u, heq]

lemma single_stream_roundtrip (n C : ℕ) (w1 w2 : ℕ → ℚ) (i : ℕ → ℕ) (l : ℕ → ℤ)
    (x : ℕ → ℕ → ℚ) (t d : ℕ) (ht : t < n) (h0 : 0 ≤ l t) (hC : l t < (C : ℤ))
    (hinj : ∀ u, u < n → u ≠ t → 0 ≤ l u → l u < (C : ℤ) →
      (i u : ℤ) * C + l u ≠ (i t : ℤ) * C + l t) :
    func_bwd_data C w2 i l (func_fwd n C w1 i l x (fun _ _ => 0)) t d
      = w2 t * (w1 t * x t d) := by
  unfold func_bwd_data func_fwd
  rw [if_pos ⟨h0, hC⟩]
  congr 1
  rw [zero_add]
  rw [Finset.sum_eq_single t]
  · rw [if_pos]
    refine ⟨?_, h0, hC⟩
    push_cast [Int.toNat_of_nonneg h0]
    ring
  · intro u hu hut
    rw [if_neg]
    rintro ⟨hslot, h0u, hCu⟩
    apply hinj u (Finset.mem_range.mp hu) hut h0u hCu
    rw [hslot]
    push_cast [Int.toNat_of_nonneg h0]
    ring
  · intro hnt
    exact absurd (Finset.mem_range.mpr ht) hnt

/-! ### Claim C1 -/

lemma ec_indices_one (e : ℕ) (g : ℕ → ℕ → ℚ) :
    ec_indices e 1 g = [selectedExpert g e 1 0] := rfl

lemma ec_gates_one (e : ℕ) (g : ℕ → ℕ → ℚ) (dt : DType) :
    ec_gates e 1 g dt = ec_gatesRaw e 1 g := by
  simp [ec_gates]

lemma ec_locations_one (n e : ℕ) (g : ℕ → ℕ → ℚ) (bpr : Bool) :
    ec_locations n e 1 g bpr = [(ec_locations n e 1 g bpr).getD 0 (fun _ => 0)] := rfl

lemma ec_gatesRaw_one (e : ℕ) (g : ℕ → ℕ → ℚ) :
    ec_gatesRaw e 1 g = [(ec_gatesRaw e 1 g).getD 0 (fun _ => 0)] := rfl

lemma dispatch_roundtrip_single (nge C dim n : ℕ) (ind : ℕ → ℕ) (locf : ℕ → ℤ)
    (gf : ℕ → ℚ) (p : Bool) (x : ℕ → ℕ → ℚ) (t d : ℕ) (ht : t < n)
    (h0 : 0 ≤ locf t) (hC : locf t < (C : ℤ))
    (hinj : ∀ u, u < n → u ≠ t → 0 ≤ locf u → locf u < (C : ℤ) →
      (ind u : ℤ) * C + locf u ≠ (ind t : ℤ) * C + locf t)
    (hg1 : gf t = 1) :
    decode { num_global_experts := nge, capacity := C, model_dim := dim, sample_size := n,
             indices_ := [ind], locations_ := [locf], gates_ := [gf], is_postscore := p }
        (encode { num_global_experts := nge, capacity := C, model_dim := dim,
                  sample_size := n, indices_ := [ind], locations_ := [locf],
                  gates_ := [gf], is_postscore := p } x) t d
      = x t d := by
  cases p with
  | true =>
    show func_bwd_data C gf ind locf
        (func_fwd n C (fun _ => 1) ind locf x (fun _ _ => 0)) t d + 0 = x t d
    rw [add_zero, single_stream_roundtrip n C (fun _ => 1) gf ind locf x t d ht h0 hC hinj,
      hg1]
    ring
  | false =>
    show func_bwd_data C (fun _ => 1) ind locf
        (func_fwd n C gf ind locf x (fun _ _ => 0)) t d + 0 = x t d
    rw [add_zero, single_stream_roundtrip n C gf (fun _ => 1) ind locf x t d ht h0 hC hinj,
      hg1]
    ring

/-- C1: with `top_k = 1`, one-hot gate rows ("identity-like routing": the
selected score of every token is 1), and capacity large enough that every
expert receives at most `capacity` tokens (so no token is dropped),
`fast_decode` applied to `fast_encode` of any input reconstructs the input
exactly at every token, for either value of `is_postscore`, using the
critical data produced by `extract_critical`. -/
theorem claim_C1 (n e dim : ℕ) (g : ℕ → ℕ → ℚ) (dt : DType) (cf : ℚ) (fp bpr : Bool)
    (p : Bool) (x : ℕ → ℕ → ℚ) (he : 0 < e)
    (h1 : ∀ t, t < n → isOneHotRow g e t)
    (hcap : ∀ E, E < e →
      ((Finset.range n).filter
        (fun s => (extract_critical n e g dt 1 cf fp bpr).1.indices_s.getD 0
          (fun _ => 0) s = E)).card
        ≤ (extract_critical n e g dt 1 cf fp bpr).1.capacity)
    (t d : ℕ) (ht : t < n) :
    fast_decode n dim
        (fast_encode n dim x (extract_critical n e g dt 1 cf fp bpr).1 p)
        (extract_critical n e g dt 1 cf fp bpr).1 p t d
      = x t d := by
  set cd := (extract_critical n e g dt 1 cf fp bpr).1 with hcd
  have hind : cd.indices_s = [selectedExpert g e 1 0] := by
    rw [hcd, extract_critical_fst]
    exact ec_indices_one e g
  have hlocs : cd.locations_s = [(ec_locations n e 1 g bpr).getD 0 (fun _ => 0)] := by
    rw [hcd, extract_critical_fst]
    exact ec_locations_one n e g bpr
  have hgs : cd.gates_s = [(ec_gatesRaw e 1 g).getD 0 (fun _ => 0)] := by
    rw [hcd, extract_critical_fst]
    show ec_gates e 1 g dt = _
    rw [ec_gates_one]
    exact ec_gatesRaw_one e g
  have hcap2 : ∀ E, E < e →
      (((Finset.range n).filter (fun s => selectedExpert g e 1 0 s = E)).card : ℤ)
        ≤ (cd.capacity : ℤ) := by
    intro E hE
    have hc := hcap E hE
    rw [hind] at hc
    simp only [List.getD_cons_zero] at hc
    exact_mod_cast hc
  have hbounds : ∀ u, u < n →
      0 ≤ (ec_locations n e 1 g bpr).getD 0 (fun _ => 0) u ∧
      (ec_locations n e 1 g bpr).getD 0 (fun _ => 0) u < (cd.capacity : ℤ) := by
    intro u hu
    exact loc0_bounds n e 1 g bpr cd.capacity (by omega) he (by omega) u hu
      (hcap2 (selectedExpert g e 1 0 u)
        (selectedExpert_lt g e 1 0 u he (by omega) (by omega)))
  have hone : ∀ u, u < n → (ec_gatesRaw e 1 g).getD 0 (fun _ => 0) u = 1 := by
    intro u hu
    rw [ec_gatesRaw_getD e 1 g 0 (by omega) he (by omega) u]
    exact onehot_sel g e 1 u he (by omega) (by omega) (h1 u hu)
  obtain ⟨h0t, hCt⟩ := hbounds t ht
  have hinj : ∀ u, u < n → u ≠ t →
      0 ≤ (ec_locations n e 1 g bpr).getD 0 (fun _ => 0) u →
      (ec_locations n e 1 g bpr).getD 0 (fun _ => 0) u < (cd.capacity : ℤ) →
      (selectedExpert g e 1 0 u : ℤ) * cd.capacity
          + (ec_locations n e 1 g bpr).getD 0 (fun _ => 0) u
        ≠ (selectedExpert g e 1 0 t : ℤ) * cd.capacity
          + (ec_locations n e 1 g bpr).getD 0 (fun _ => 0) t := by
    intro u hu hut h0u hCu
    exact slot_ne n e 1 g bpr cd.capacity 0 (by omega) he (by omega) t u ht hu hut
      h0u hCu h0t hCt
  have hdisp : dispatcherOf n dim cd p
      = { num_global_experts := cd.num_global_experts, capacity := cd.capacity,
          model_dim := dim, sample_size := n,
          indices_ := [selectedExpert g e 1 0],
          locations_ := [(ec_locations n e 1 g bpr).getD 0 (fun _ => 0)],
          gates_ := [(ec_gatesRaw e 1 g).getD 0 (fun _ => 0)],
          is_postscore := p } := by
    unfold dispatcherOf
    rw [hind, hlocs, hgs]
  show decode (dispatcherOf n dim cd p) (encode (dispatcherOf n dim cd p) x) t d = x t d
  rw [hdisp]
  exact dispatch_roundtrip_single cd.num_global_experts cd.capacity dim n
    (selectedExpert g e 1 0) ((ec_locations n e 1 g bpr).getD 0 (fun _ => 0))
    ((ec_gatesRaw e 1 g).getD 0 (fun _ => 0)) p x t d ht h0t hCt hinj (hone t ht)

/-- Witness for C1: the 2×2 identity routing with capacity 1 reconstructs the
input at token 0 in postscore mode. -/
theorem claim_C1_witness :
    fast_decode 2 1
        (fast_encode 2 1 (fun u _ => (u : ℚ))
          (extract_critical 2 2 identityGates DType.f32 1 1 false false).1 true)
        (extract_critical 2 2 identityGates DType.f32 1 1 false false).1 true 0 0
      = (fun u _ => (u : ℚ)) 0 0 := by
  have hcapval : (extract_critical 2 2 identityGates DType.f32 1 1 false false).1.capacity
      = 1 := by
    rw [extract_critical_fst]
    show 1 * (pyInt ((1 : ℚ) * (((2 + 2 - 1) / 2 : ℕ) : ℚ))).toNat = 1
    have h1 : ((1 : ℚ) * (((2 + 2 - 1) / 2 : ℕ) : ℚ)) = 1 := by norm_num
    rw [h1]
    have h2 : pyInt (1 : ℚ) = 1 := by
      unfold pyInt
      rw [if_neg (by norm_num)]
      norm_num
    rw [h2]
    rfl
  exact claim_C1 2 2 1 identityGates DType.f32 1 false false true (fun u _ => (u : ℚ))
    (by decide)
    (by
      intro u hu
      interval_cases u
      · exact ⟨0, by decide, by decide, by
          intro c hc hne
          interval_cases c
          · exact absurd rfl hne
          · decide⟩
      · exact ⟨1, by decide, by decide, by
          intro c hc hne
          interval_cases c
          · decide
          · exact absurd rfl hne⟩)
    (fun E hE => by rw [hcapval]; interval_cases E <;> decide)
    0 0 (by decide)

end Tutel
